import Mathlib

/-!
Directory picker and main menu of flutter-takeoff (`pkg/ui/filepicker.go`,
`pkg/ui/menu.go`).

A shallow embedding of `FilePickerModel` and its methods, and of
`MenuModel.Update`.

* Go `int` values (`cursor`, `startIndex`, `height`, `len(items)`) are `Int`
  values; every `+`, `-`, `++`, `--`, `+=` and `-=` of the source on them is
  followed by `wrap`, the two's-complement wrap-around of Go's `int` on 64-bit
  targets. The one exception is the loop counter of `View`, which stays below
  `endIndex` and so never wraps.
* A nil slice is `none`, a non-nil slice is `some xs`.
* An index expression `m.items[i]` that is out of range panics in Go; the
  methods that index return `Option`, with `none` for the run-time panic.
* The operating system and the `path/filepath`, `lipgloss` and `bubbles/list`
  libraries are parameters (`Env`, `Styles`, `ListLib`).
-/

namespace FilePicker

/-- The struct `fileItem` (filepicker.go 25-29). -/
structure fileItem where
  name : String
  path : String
  isDir : Bool
deriving DecidableEq, Repr

/-- One `os.DirEntry` as far as the picker looks at it: `Name()` and `IsDir()`. -/
structure DirEntry where
  name : String
  isDir : Bool
deriving DecidableEq, Repr

/-- The operating-system and `path/filepath` operations the picker calls.
`readDir p = none` stands for `os.ReadDir` returning `err != nil`. -/
structure Env where
  getenv : String → String
  abs : String → String
  volumeName : String → String
  separator : Char
  dir : String → String
  join : String → String → String
  readDir : String → Option (List DirEntry)

/-- The struct `FilePickerModel` (filepicker.go 14-23). -/
structure FilePickerModel where
  currentPath : String
  items : Option (List fileItem)
  cursor : Int
  selected : String
  done : Bool
  showHidden : Bool
  height : Int
  startIndex : Int
deriving DecidableEq, Repr

/-- The second component of what `Update` returns: `nil` or `tea.Quit`. -/
inductive Cmd where
  | nil
  | quit
deriving DecidableEq, Repr

/-- A `tea.Msg`: a `tea.KeyMsg`, given by its `String()`, or any other message. -/
inductive Msg where
  | key (s : String)
  | other
deriving DecidableEq, Repr

/-- The least value of Go's 64-bit `int`. -/
def minInt : Int := -9223372036854775808

/-- The greatest value of Go's 64-bit `int`. -/
def maxInt : Int := 9223372036854775807

/-- The value Go's 64-bit `int` holds after an addition or subtraction whose
exact result is `x`: `x` reduced modulo 2^64 into `[minInt, maxInt]`. -/
def wrap (x : Int) : Int :=
  (x + 9223372036854775808) % 18446744073709551616 - 9223372036854775808

/-- The number `x` is a value of Go's 64-bit `int`. -/
def GoInt (x : Int) : Prop :=
  minInt ≤ x ∧ x ≤ maxInt

instance (x : Int) : Decidable (GoInt x) := by
  unfold GoInt; infer_instance

/-- Go `len(s)` of a possibly nil slice. -/
def sliceLen (s : Option (List fileItem)) : Int :=
  ((s.getD []).length : Int)

/-- Go `s[i]`: `none` is the index-out-of-range panic. -/
def sliceIndex (s : Option (List fileItem)) (i : Int) : Option fileItem :=
  if 0 ≤ i ∧ i < sliceLen s then (s.getD [])[i.toNat]? else none

/-- Go `strings.HasPrefix`. -/
def hasPrefix (s p : String) : Bool :=
  p.toList.isPrefixOf s.toList

/-- `NewFilePicker` (filepicker.go 32-44). -/
def NewFilePicker (env : Env) (startPath : String) (height : Int) : FilePickerModel :=
  let startPath := if startPath = "" then env.getenv "USERPROFILE" else startPath
  let absPath := env.abs startPath
  { currentPath := absPath
    items := none
    cursor := 0
    selected := ""
    done := false
    showHidden := false
    height := height
    startIndex := 0 }

/-- The body of the `for _, entry := range entries` loop of `loadDirectory`
(filepicker.go 247-260), as a step on the accumulated `dirs`. -/
def loadStep (env : Env) (currentPath : String) (showHidden : Bool)
    (dirs : List fileItem) (entry : DirEntry) : List fileItem :=
  if !showHidden && hasPrefix entry.name "." then
    dirs
  else if entry.isDir then
    dirs ++ [{ name := entry.name, path := env.join currentPath entry.name, isDir := true }]
  else
    dirs

/-- `loadDirectory` (filepicker.go 224-264). -/
def loadDirectory (env : Env) (m : FilePickerModel) : FilePickerModel :=
  let items : List fileItem := []
  let items :=
    if m.currentPath ≠ env.volumeName m.currentPath ++ String.singleton env.separator then
      items ++ [{ name := "..", path := env.dir m.currentPath, isDir := true }]
    else
      items
  match env.readDir m.currentPath with
  | none => { m with items := some items }
  | some entries =>
    let dirs := entries.foldl (loadStep env m.currentPath m.showHidden) []
    { m with items := some (items ++ dirs) }

/-- The case `"ctrl+c", "esc"` of `Update` (filepicker.go 56-59). -/
def updateCancel (m : FilePickerModel) : FilePickerModel :=
  let m := { m with done := true }
  { m with selected := "" }

/-- The case `"enter"` of `Update` (filepicker.go 61-79); the `isDir` branch
falls through to the final `return m, nil`. -/
def updateEnter (env : Env) (m : FilePickerModel) : Option (FilePickerModel × Cmd) :=
  if sliceLen m.items = 0 then
    some (m, .nil)
  else
    match sliceIndex m.items m.cursor with
    | none => none
    | some selectedItem =>
      if selectedItem.isDir then
        let m := { m with currentPath := selectedItem.path }
        let m := { m with cursor := 0 }
        let m := { m with startIndex := 0 }
        some (loadDirectory env m, .nil)
      else
        let m := { m with selected := m.currentPath }
        let m := { m with done := true }
        some (m, .quit)

/-- The case `"s"` of `Update` (filepicker.go 81-85). -/
def updateSelect (m : FilePickerModel) : FilePickerModel :=
  let m := { m with selected := m.currentPath }
  { m with done := true }

/-- The case `"up", "k"` of `Update` (filepicker.go 87-94). -/
def updateUp (m : FilePickerModel) : FilePickerModel :=
  if m.cursor > 0 then
    let m := { m with cursor := wrap (m.cursor - 1) }
    if m.cursor < m.startIndex then
      { m with startIndex := m.cursor }
    else
      m
  else
    m

/-- The case `"down", "j"` of `Update` (filepicker.go 96-104). -/
def updateDown (m : FilePickerModel) : FilePickerModel :=
  if m.cursor < wrap (sliceLen m.items - 1) then
    let m := { m with cursor := wrap (m.cursor + 1) }
    let visibleItems := wrap (m.height - 6)
    if m.cursor ≥ wrap (m.startIndex + visibleItems) then
      { m with startIndex := wrap (wrap (m.cursor - visibleItems) + 1) }
    else
      m
  else
    m

/-- The case `"h"` of `Update` (filepicker.go 106-111). -/
def updateToggleHidden (env : Env) (m : FilePickerModel) : FilePickerModel :=
  let m := { m with showHidden := !m.showHidden }
  let m := { m with cursor := 0 }
  let m := { m with startIndex := 0 }
  loadDirectory env m

/-- The case `"home"` of `Update` (filepicker.go 113-115). -/
def updateHome (m : FilePickerModel) : FilePickerModel :=
  let m := { m with cursor := 0 }
  { m with startIndex := 0 }

/-- The case `"end"` of `Update` (filepicker.go 117-122). -/
def updateEnd (m : FilePickerModel) : FilePickerModel :=
  let m := { m with cursor := wrap (sliceLen m.items - 1) }
  let visibleItems := wrap (m.height - 6)
  if sliceLen m.items > visibleItems then
    { m with startIndex := wrap (sliceLen m.items - visibleItems) }
  else
    m

/-- The case `"pgup"` of `Update` (filepicker.go 124-130). -/
def updatePgUp (m : FilePickerModel) : FilePickerModel :=
  let visibleItems := wrap (m.height - 6)
  let m := { m with cursor := wrap (m.cursor - visibleItems) }
  let m := if m.cursor < 0 then { m with cursor := 0 } else m
  { m with startIndex := m.cursor }

/-- The case `"pgdown"` of `Update` (filepicker.go 132-140). -/
def updatePgDown (m : FilePickerModel) : FilePickerModel :=
  let visibleItems := wrap (m.height - 6)
  let m := { m with cursor := wrap (m.cursor + visibleItems) }
  let m :=
    if m.cursor ≥ sliceLen m.items then { m with cursor := wrap (sliceLen m.items - 1) } else m
  if m.cursor ≥ wrap (m.startIndex + visibleItems) then
    { m with startIndex := wrap (wrap (m.cursor - visibleItems) + 1) }
  else
    m

/-- `FilePickerModel.Update` (filepicker.go 52-145): the switch on the type of
the message and, for a key, on `msg.String()`; each case is the definition
above it. -/
def Update (env : Env) (m : FilePickerModel) (msg : Msg) : Option (FilePickerModel × Cmd) :=
  match msg with
  | .other => some (m, .nil)
  | .key s =>
    if s = "ctrl+c" ∨ s = "esc" then some (updateCancel m, .quit)
    else if s = "enter" then updateEnter env m
    else if s = "s" then some (updateSelect m, .quit)
    else if s = "up" ∨ s = "k" then some (updateUp m, .nil)
    else if s = "down" ∨ s = "j" then some (updateDown m, .nil)
    else if s = "h" then some (updateToggleHidden env m, .nil)
    else if s = "home" then some (updateHome m, .nil)
    else if s = "end" then some (updateEnd m, .nil)
    else if s = "pgup" then some (updatePgUp m, .nil)
    else if s = "pgdown" then some (updatePgDown m, .nil)
    else some (m, .nil)

/-- The `lipgloss` renderers `View` calls: `headerStyle.Render`,
`SubtleStyle.Render`, `NormalStyle.Render` and the `Render` of the bold style
of the cursor row. -/
structure Styles where
  header : String → String
  subtle : String → String
  normal : String → String
  highlight : String → String

/-- The string one pass of the `for i := m.startIndex; i < endIndex; i++` loop
of `View` writes (filepicker.go 182-204); `none` when `m.items[i]` panics. -/
def viewRow (st : Styles) (m : FilePickerModel) (i : Int) : Option String :=
  match sliceIndex m.items i with
  | none => none
  | some item =>
    let cursor := if m.cursor = i then "→ " else "  "
    let icon := if item.isDir then (if item.name = ".." then "⬆️ " else "📁") else "📄"
    let name := if m.cursor = i then st.highlight item.name else st.normal item.name
    some (cursor ++ icon ++ " " ++ name ++ "\n")

/-- The loop of `View` (filepicker.go 181-205) with `n` passes left, at index
`i`: the strings it writes, `none` when a pass panics. A pass runs only while
`i < endIndex`, so `i++` stays below an `int` and does not wrap. -/
def viewRowsFrom (st : Styles) (m : FilePickerModel) : Nat → Int → Option (List String)
  | 0, _ => some []
  | n + 1, i =>
    match viewRow st m i with
    | none => none
    | some row => (viewRowsFrom st m n (i + 1)).map (fun rows => row :: rows)

/-- The strings written by the whole loop `for i := m.startIndex; i < endIndex; i++`
of `View`: it makes `endIndex - m.startIndex` passes (none when that is negative). -/
def viewRows (st : Styles) (m : FilePickerModel) (endIndex : Int) : Option (List String) :=
  viewRowsFrom st m (endIndex - m.startIndex).toNat m.startIndex

/-- The `endIndex` of `View` (filepicker.go 172-176). -/
def viewEndIndex (m : FilePickerModel) : Int :=
  let visibleItems := wrap (m.height - 6)
  let endIndex := wrap (m.startIndex + visibleItems)
  if endIndex > sliceLen m.items then sliceLen m.items else endIndex

/-- `FilePickerModel.View` (filepicker.go 148-221). The receiver is a value, so
the lazy `loadDirectory` acts on the copy `View` works with. -/
def View (env : Env) (st : Styles) (m : FilePickerModel) : Option String :=
  if m.done then
    some ""
  else
    let m := if m.items.isNone then loadDirectory env m else m
    let header := st.header ("📁 Select Directory: " ++ m.currentPath) ++ "\n\n"
    let visibleItems := wrap (m.height - 6)
    let endIndex := viewEndIndex m
    let body : Option String :=
      if sliceLen m.items = 0 then
        some (st.subtle "  (empty directory)\n")
      else
        (viewRows st m endIndex).map String.join
    let hint :=
      if sliceLen m.items > visibleItems then
        st.subtle ("\n  (showing " ++ toString (wrap (m.startIndex + 1)) ++ "-" ++ toString endIndex
          ++ " of " ++ toString (sliceLen m.items) ++ ")")
      else
        ""
    let footer := "\n\n"
      ++ st.subtle "  ↑/↓: Navigate  Enter: Open folder  S: Select this directory"
      ++ "\n"
      ++ st.subtle "  H: Toggle hidden files  Esc: Cancel"
    body.map (fun rows => header ++ rows ++ hint ++ footer)

/-- `Selected` (filepicker.go 267-269). -/
def Selected (m : FilePickerModel) : String := m.selected

/-- `IsDone` (filepicker.go 272-274). -/
def IsDone (m : FilePickerModel) : Bool := m.done

/-- The program loop feeding messages to `Update`, each with the state of the
operating system at that moment; `none` when some `Update` panics. -/
def runUpdates (m : FilePickerModel) : List (Env × Msg) → Option FilePickerModel
  | [] => some m
  | (env, msg) :: rest =>
    match Update env m msg with
    | none => none
    | some (m', _) => runUpdates m' rest

/-! ## The scroll invariant -/

/-- What every state the picker reaches satisfies. While entries are listed:
the window starts at a non-negative index, the cursor is an index of the list
and lies in the window, and a list that fits the window is shown from its top.
While no entry is listed: the window starts at 0 and the cursor is 0 or -1. -/
def Inv (m : FilePickerModel) : Prop :=
  (0 < sliceLen m.items →
    0 ≤ m.startIndex ∧ m.startIndex ≤ m.cursor ∧ m.cursor < sliceLen m.items ∧
    m.cursor < m.startIndex + (m.height - 6) ∧
    (sliceLen m.items ≤ m.height - 6 → m.startIndex = 0)) ∧
  (sliceLen m.items = 0 → m.startIndex = 0 ∧ -1 ≤ m.cursor ∧ m.cursor ≤ 0)

instance (m : FilePickerModel) : Decidable (Inv m) := by
  unfold Inv; infer_instance

/-- No index of the entry list plus the window height `height - 6` leaves the
range of Go's `int`, and `height` is such an `int`. -/
def Fit (m : FilePickerModel) : Prop :=
  GoInt m.height ∧ sliceLen m.items + (m.height - 6) ≤ maxInt + 1

instance (m : FilePickerModel) : Decidable (Fit m) := by
  unfold Fit; infer_instance

/-- Every directory listing of the system `env`, taken with the window height
`height - 6`, stays in the range of Go's `int`: entries plus window height is
at most `maxInt`. -/
def Fits (height : Int) (env : Env) : Prop :=
  ∀ p L, env.readDir p = some L → (L.length : Int) + (height - 6) ≤ maxInt

/-! ## The scroll controller as the specification words it -/

/-- The specification's clamp of `x` to `[lo, hi]`. -/
def clamp (x lo hi : Int) : Int :=
  if x < lo then lo else if x > hi then hi else x

/-- The specification's `moveCursor(delta)`, from its words: the cursor is
clamped to `[0, entryCount - 1]`; if the new cursor falls below `startIndex`,
`startIndex` becomes the cursor; if it falls at or beyond
`startIndex + viewportHeight`, `startIndex` becomes
`cursor - viewportHeight + 1`. The result is `(cursor, startIndex)`. -/
def specMoveCursor (cursor startIndex viewportHeight entryCount delta : Int) : Int × Int :=
  let cursor' := clamp (cursor + delta) 0 (entryCount - 1)
  let startIndex' :=
    if cursor' < startIndex then cursor'
    else if cursor' ≥ startIndex + viewportHeight then cursor' - viewportHeight + 1
    else startIndex
  (cursor', startIndex')

/-- The entry sequence the specification gives a reload over a listing that
was read: the synthetic parent entry unless the path is a root, then, in
reading order, the subdirectories that are shown. -/
def specEntries (env : Env) (currentPath : String) (showHidden : Bool)
    (listing : List DirEntry) : List fileItem :=
  (if currentPath ≠ env.volumeName currentPath ++ String.singleton env.separator then
      [{ name := "..", path := env.dir currentPath, isDir := true }]
    else [])
  ++ (listing.filter (fun e => e.isDir && (showHidden || !hasPrefix e.name "."))).map
      (fun e => { name := e.name, path := env.join currentPath e.name, isDir := true })

/-- The scroll position of a picker: `(cursor, startIndex)`. -/
def position (m : FilePickerModel) : Int × Int :=
  (m.cursor, m.startIndex)

/-- What the caller of the picker can observe: `(IsDone(), Selected())`. -/
def observe (m : FilePickerModel) : Bool × String :=
  (IsDone m, Selected m)

/-! ## A small file system for concrete runs -/

/-- A directory listing: `.git` and `lib` are directories, `main.txt` a file. -/
def sampleListing : List DirEntry :=
  [{ name := ".git", isDir := true }, { name := "lib", isDir := true },
   { name := "main.txt", isDir := false }]

/-- A Unix-like system (no volume names, separator `/`) where every directory
reads as `sampleListing`. -/
def sampleEnv : Env where
  getenv := fun _ => "/home/dev"
  abs := fun p => p
  volumeName := fun _ => ""
  separator := '/'
  dir := fun _ => "/home"
  join := fun a b => a ++ "/" ++ b
  readDir := fun _ => some sampleListing

/-- The system `sampleEnv` with every directory read failing. -/
def failingEnv : Env :=
  { sampleEnv with readDir := fun _ => none }

/-- The system `sampleEnv` with `filepath.Abs` failing: it returns the empty
string (and an error that `NewFilePicker` drops). -/
def noCwdEnv : Env :=
  { sampleEnv with abs := fun _ => "" }

/-- Twelve subdirectories `d`, as `loadDirectory` lists them at a root. -/
def twelveItems : List fileItem :=
  List.replicate 12 { name := "d", path := "/d", isDir := true }

/-- A picker of height 11 (five visible rows) at the top of twelve entries. -/
def twelvePicker : FilePickerModel :=
  { currentPath := "/", items := some twelveItems, cursor := 0, selected := "",
    done := false, showHidden := false, height := 11, startIndex := 0 }

/-- The picker of height 11 at "/home/dev" after a reload over `sampleEnv`. -/
def sampleLoaded : FilePickerModel :=
  loadDirectory sampleEnv (NewFilePicker sampleEnv "/home/dev" 11)

/-- A picker of height 11 fresh from `NewFilePicker` at "/home/dev". -/
def freshPicker : FilePickerModel :=
  NewFilePicker sampleEnv "/home/dev" 11

/-- A listing of twelve subdirectories. -/
def wideListing : List DirEntry :=
  List.replicate 12 { name := "d", isDir := true }

/-- The system `sampleEnv` with every directory reading as `wideListing`. -/
def wideEnv : Env :=
  { sampleEnv with readDir := fun _ => some wideListing }

/-- A picker of the greatest height Go's `int` holds, fresh from
`NewFilePicker`. -/
def tallPicker : FilePickerModel :=
  NewFilePicker wideEnv "/home/dev" maxInt

/-- The keys h, seven times down, and pgdown, over `wideEnv`. -/
def overflowKeys : List (Env × Msg) :=
  (wideEnv, Msg.key "h") :: List.replicate 7 (wideEnv, Msg.key "down")
    ++ [(wideEnv, Msg.key "pgdown")]

/-- A picker of height `maxInt` with thirteen entries, the cursor on the
eighth and the window at the top. -/
def tallAtSeven : FilePickerModel :=
  { currentPath := "/home/dev",
    items := some (List.replicate 13 { name := "d", path := "/home/dev/d", isDir := true }),
    cursor := 7, selected := "", done := false, showHidden := true, height := maxInt,
    startIndex := 0 }

/-- Identity renderers. -/
def plainStyles : Styles :=
  { header := id, subtle := id, normal := id, highlight := id }

/-! ## Entries are directories -/

/-- Every entry of the list is a directory entry (`isDir` is true). -/
def AllDirs (m : FilePickerModel) : Prop :=
  ∀ it ∈ m.items.getD [], it.isDir = true

instance (m : FilePickerModel) : Decidable (AllDirs m) := by
  unfold AllDirs; infer_instance

/-! ## The main menu (`pkg/ui/menu.go`) -/

/-- The struct `MenuItem` (menu.go 13-17). -/
structure MenuItem where
  Title : String
  Description : String
  Value : String
deriving DecidableEq, Repr

/-- A `list.Item` of the `bubbles/list` library: a `MenuItem` or a value of
another type. -/
inductive ListItem where
  | menuItem (i : MenuItem)
  | foreign
deriving DecidableEq, Repr

/-- A `tea.Msg` as `MenuModel.Update` tells them apart: a `tea.WindowSizeMsg`,
a `tea.KeyMsg` (by its `String()`), or any other message. -/
inductive MenuMsg where
  | windowSize (Width Height : Int)
  | key (s : String)
  | other
deriving DecidableEq, Repr

/-- The `tea.Cmd` that `MenuModel.Update` returns: `nil`, `tea.Quit`, or the
command that `list.Model.Update` returned. -/
inductive MenuCmd (C : Type) where
  | nil
  | quit
  | ofList (c : C)

/-- The operations of the library type `list.Model` (here `L`, with `C` its
commands) that `MenuModel.Update` calls. `SelectedItem` is `none` for the nil
interface value the library returns when no item is selected. -/
structure ListLib (L C : Type) where
  SelectedItem : L → Option ListItem
  SetWidth : L → Int → L
  Update : L → MenuMsg → L × C

/-- The struct `MenuModel` (menu.go 41-45). -/
structure MenuModel (L : Type) where
  list : L
  choice : String
  quitting : Bool

/-- `MenuModel.Update` (menu.go 68-92). -/
def MenuModel.Update {L C : Type} (lib : ListLib L C) (m : MenuModel L) (msg : MenuMsg) :
    MenuModel L × MenuCmd C :=
  let passOn : MenuModel L × MenuCmd C :=
    let r := lib.Update m.list msg
    ({ m with list := r.1 }, .ofList r.2)
  match msg with
  | .windowSize width _ => ({ m with list := lib.SetWidth m.list width }, .nil)
  | .key keypress =>
    if keypress = "ctrl+c" then
      ({ m with quitting := true }, .quit)
    else if keypress = "enter" then
      let m :=
        match lib.SelectedItem m.list with
        | some (.menuItem i) => { m with choice := i.Value }
        | _ => m
      ({ m with quitting := true }, .quit)
    else
      passOn
  | .other => passOn

/-- `MenuModel.Choice` (menu.go 101-103). -/
def MenuModel.Choice {L : Type} (m : MenuModel L) : String := m.choice

/-- A stand-in for the list library: the list is its items, the first one (if
any) is selected, and neither resizing nor other messages change it. -/
def headList : ListLib (List MenuItem) Unit where
  SelectedItem := fun l => l.head?.map ListItem.menuItem
  SetWidth := fun l _ => l
  Update := fun l _ => (l, ())

/-- A menu over the empty list, as `NewMenu` gives it for no items. -/
def emptyMenu : MenuModel (List MenuItem) :=
  { list := [], choice := "", quitting := false }

/-! ## Frame lemmas for `loadDirectory` -/

@[simp] theorem loadDirectory_cursor (env : Env) (m : FilePickerModel) :
    (loadDirectory env m).cursor = m.cursor := by
  simp only [loadDirectory]; cases env.readDir m.currentPath <;> rfl

@[simp] theorem loadDirectory_startIndex (env : Env) (m : FilePickerModel) :
    (loadDirectory env m).startIndex = m.startIndex := by
  simp only [loadDirectory]; cases env.readDir m.currentPath <;> rfl

@[simp] theorem loadDirectory_height (env : Env) (m : FilePickerModel) :
    (loadDirectory env m).height = m.height := by
  simp only [loadDirectory]; cases env.readDir m.currentPath <;> rfl

@[simp] theorem loadDirectory_done (env : Env) (m : FilePickerModel) :
    (loadDirectory env m).done = m.done := by
  simp only [loadDirectory]; cases env.readDir m.currentPath <;> rfl

@[simp] theorem loadDirectory_selected (env : Env) (m : FilePickerModel) :
    (loadDirectory env m).selected = m.selected := by
  simp only [loadDirectory]; cases env.readDir m.currentPath <;> rfl

@[simp] theorem loadDirectory_showHidden (env : Env) (m : FilePickerModel) :
    (loadDirectory env m).showHidden = m.showHidden := by
  simp only [loadDirectory]; cases env.readDir m.currentPath <;> rfl

@[simp] theorem loadDirectory_currentPath (env : Env) (m : FilePickerModel) :
    (loadDirectory env m).currentPath = m.currentPath := by
  simp only [loadDirectory]; cases env.readDir m.currentPath <;> rfl

theorem sliceLen_nonneg (s : Option (List fileItem)) : 0 ≤ sliceLen s := by
  unfold sliceLen; exact Int.ofNat_nonneg _

theorem sliceIndex_some (s : Option (List fileItem)) (i : Int)
    (h0 : 0 ≤ i) (h1 : i < sliceLen s) : ∃ x, sliceIndex s i = some x := by
  have hlt : i.toNat < (s.getD []).length := by
    unfold sliceLen at h1; omega
  refine ⟨(s.getD [])[i.toNat], ?_⟩
  unfold sliceIndex
  rw [if_pos ⟨h0, h1⟩]
  exact List.getElem?_eq_getElem hlt

/-! ## The scroll invariant is kept by every `Update` -/

theorem Inv_reset (m : FilePickerModel) (hv : 1 ≤ m.height - 6)
    (hc : m.cursor = 0) (hs : m.startIndex = 0) : Inv m := by
  refine ⟨fun hpos => ?_, fun _ => ?_⟩
  · rw [hc, hs]
    exact ⟨le_refl _, le_refl _, hpos, by omega, fun _ => rfl⟩
  · rw [hc, hs]
    exact ⟨rfl, by omega, le_refl _⟩

theorem Inv_NewFilePicker (env : Env) (startPath : String) (height : Int)
    (hv : 1 ≤ height - 6) : Inv (NewFilePicker env startPath height) :=
  Inv_reset _ hv rfl rfl

/-- Case analysis on the key of a `tea.KeyMsg`: a property that holds of what
each case of the switch returns holds of what `Update` returns. -/
theorem Update_key_cases (P : Option (FilePickerModel × Cmd) → Prop)
    (env : Env) (m : FilePickerModel) (s : String)
    (hcancel : P (some (updateCancel m, .quit)))
    (henter : P (updateEnter env m))
    (hselect : P (some (updateSelect m, .quit)))
    (hup : P (some (updateUp m, .nil)))
    (hdown : P (some (updateDown m, .nil)))
    (hhidden : P (some (updateToggleHidden env m, .nil)))
    (hhome : P (some (updateHome m, .nil)))
    (hend : P (some (updateEnd m, .nil)))
    (hpgup : P (some (updatePgUp m, .nil)))
    (hpgdown : P (some (updatePgDown m, .nil)))
    (hother : P (some (m, .nil))) :
    P (Update env m (.key s)) := by
  show P (if s = "ctrl+c" ∨ s = "esc" then _ else _)
  by_cases h1 : s = "ctrl+c" ∨ s = "esc"
  · rw [if_pos h1]; exact hcancel
  rw [if_neg h1]
  by_cases h2 : s = "enter"
  · rw [if_pos h2]; exact henter
  rw [if_neg h2]
  by_cases h3 : s = "s"
  · rw [if_pos h3]; exact hselect
  rw [if_neg h3]
  by_cases h4 : s = "up" ∨ s = "k"
  · rw [if_pos h4]; exact hup
  rw [if_neg h4]
  by_cases h5 : s = "down" ∨ s = "j"
  · rw [if_pos h5]; exact hdown
  rw [if_neg h5]
  by_cases h6 : s = "h"
  · rw [if_pos h6]; exact hhidden
  rw [if_neg h6]
  by_cases h7 : s = "home"
  · rw [if_pos h7]; exact hhome
  rw [if_neg h7]
  by_cases h8 : s = "end"
  · rw [if_pos h8]; exact hend
  rw [if_neg h8]
  by_cases h9 : s = "pgup"
  · rw [if_pos h9]; exact hpgup
  rw [if_neg h9]
  by_cases h10 : s = "pgdown"
  · rw [if_pos h10]; exact hpgdown
  rw [if_neg h10]
  exact hother

/-! ## Arithmetic of Go's `int` -/

theorem wrap_of_GoInt (x : Int) (h : GoInt x) : wrap x = x := by
  unfold GoInt minInt maxInt at h
  unfold wrap
  omega

theorem wrap_GoInt (x : Int) : GoInt (wrap x) := by
  unfold GoInt minInt maxInt wrap
  omega

/-! ## What a reload lists -/

theorem foldl_loadStep (env : Env) (currentPath : String) (showHidden : Bool)
    (listing : List DirEntry) :
    ∀ dirs : List fileItem,
      listing.foldl (loadStep env currentPath showHidden) dirs =
        dirs ++ (listing.filter (fun e => e.isDir && (showHidden || !hasPrefix e.name "."))).map
          (fun e => { name := e.name, path := env.join currentPath e.name, isDir := true }) := by
  induction listing with
  | nil => intro dirs; simp
  | cons e rest ih =>
    intro dirs
    rw [List.foldl_cons, ih]
    unfold loadStep
    cases hh : showHidden <;> cases hp : hasPrefix e.name "." <;> cases hd : e.isDir <;>
      simp [List.filter_cons, hp, hd]

theorem mem_specEntries_isDir (env : Env) (currentPath : String) (showHidden : Bool)
    (listing : List DirEntry) :
    ∀ it ∈ specEntries env currentPath showHidden listing, it.isDir = true := by
  intro it hit
  unfold specEntries at hit
  rcases List.mem_append.mp hit with h | h
  · split_ifs at h
    · rw [List.mem_singleton.mp h]
    · cases h
  · obtain ⟨e, -, rfl⟩ := List.mem_map.mp h
    rfl

theorem loadDirectory_items_of_read (env : Env) (m : FilePickerModel) (L : List DirEntry)
    (hread : env.readDir m.currentPath = some L) :
    (loadDirectory env m).items = some (specEntries env m.currentPath m.showHidden L) := by
  simp only [loadDirectory, hread, foldl_loadStep, specEntries, List.nil_append]

theorem loadDirectory_items_of_fail (env : Env) (m : FilePickerModel)
    (hfail : env.readDir m.currentPath = none) :
    (loadDirectory env m).items =
      some (if m.currentPath ≠ env.volumeName m.currentPath ++ String.singleton env.separator
        then [{ name := "..", path := env.dir m.currentPath, isDir := true }] else []) := by
  simp only [loadDirectory, hfail, List.nil_append]

theorem length_specEntries_le (env : Env) (currentPath : String) (showHidden : Bool)
    (L : List DirEntry) :
    (specEntries env currentPath showHidden L).length ≤ L.length + 1 := by
  unfold specEntries
  rw [List.length_append, List.length_map]
  have h1 := List.length_filter_le
    (fun e : DirEntry => e.isDir && (showHidden || !hasPrefix e.name ".")) L
  split_ifs
  · simp only [List.length_singleton]; omega
  · simp only [List.length_nil]; omega

/-- A reload lists at most one entry more than the directory read gave, and at
most one entry when the read failed. -/
theorem sliceLen_loadDirectory_le (env : Env) (m : FilePickerModel) :
    (∀ L, env.readDir m.currentPath = some L →
      sliceLen (loadDirectory env m).items ≤ (L.length : Int) + 1) ∧
    (env.readDir m.currentPath = none → sliceLen (loadDirectory env m).items ≤ 1) := by
  constructor
  · intro L hread
    rw [loadDirectory_items_of_read env m L hread]
    unfold sliceLen
    simp only [Option.getD_some]
    have := length_specEntries_le env m.currentPath m.showHidden L
    omega
  · intro hfail
    rw [loadDirectory_items_of_fail env m hfail]
    unfold sliceLen
    simp only [Option.getD_some]
    split_ifs
    · simp only [List.length_singleton]; omega
    · simp only [List.length_nil]; omega

theorem Fit_loadDirectory (env : Env) (m : FilePickerModel) (hg : GoInt m.height)
    (hfits : Fits m.height env) : Fit (loadDirectory env m) := by
  obtain ⟨h1, h2⟩ := sliceLen_loadDirectory_le env m
  refine ⟨by simpa using hg, ?_⟩
  rw [loadDirectory_height]
  cases hread : env.readDir m.currentPath with
  | none =>
    have := h2 hread
    unfold GoInt at hg
    omega
  | some L =>
    have := h1 L hread
    have := hfits m.currentPath L hread
    omega

theorem Fit_of_eq (m m' : FilePickerModel) (hh : m'.height = m.height)
    (hi : m'.items = m.items) (hF : Fit m) : Fit m' := by
  unfold Fit at *
  rw [hh, hi]
  exact hF

theorem Fit_NewFilePicker (env : Env) (startPath : String) (height : Int)
    (hg : GoInt height) : Fit (NewFilePicker env startPath height) := by
  refine ⟨hg, ?_⟩
  have : sliceLen (NewFilePicker env startPath height).items = 0 := rfl
  rw [this]
  have : (NewFilePicker env startPath height).height = height := rfl
  rw [this]
  unfold GoInt at hg
  omega

/-! ## Each key keeps the scroll invariant -/

theorem updateUp_inv (m : FilePickerModel) (hI : Inv m) (hF : Fit m) :
    Inv (updateUp m) ∧ (updateUp m).height = m.height ∧ (updateUp m).items = m.items := by
  unfold updateUp
  simp only
  split_ifs <;> refine ⟨?_, rfl, rfl⟩
  all_goals
    have hn := sliceLen_nonneg m.items
    obtain ⟨⟨hlo, hhi⟩, hfit⟩ := hF
    refine ⟨fun hpos => ?_, fun hzero => ?_⟩
    · have := hI.1 hpos
      simp only [wrap, minInt, maxInt] at *
      refine ⟨?_, ?_, ?_, ?_, fun hle => ?_⟩ <;> first | trivial | omega
    · have := hI.2 hzero
      simp only [wrap, minInt, maxInt] at *
      refine ⟨?_, ?_, ?_⟩ <;> first | trivial | omega

theorem updateDown_inv (m : FilePickerModel) (hv : 1 ≤ m.height - 6) (hI : Inv m)
    (hF : Fit m) :
    Inv (updateDown m) ∧ (updateDown m).height = m.height ∧
      (updateDown m).items = m.items := by
  unfold updateDown
  simp only
  split_ifs <;> refine ⟨?_, rfl, rfl⟩
  all_goals
    have hn := sliceLen_nonneg m.items
    obtain ⟨⟨hlo, hhi⟩, hfit⟩ := hF
    refine ⟨fun hpos => ?_, fun hzero => ?_⟩
    · have := hI.1 hpos
      simp only [wrap, minInt, maxInt] at *
      refine ⟨?_, ?_, ?_, ?_, fun hle => ?_⟩ <;> first | trivial | omega
    · have := hI.2 hzero
      simp only [wrap, minInt, maxInt] at *
      refine ⟨?_, ?_, ?_⟩ <;> first | trivial | omega

theorem updateHome_inv (m : FilePickerModel) (hv : 1 ≤ m.height - 6) :
    Inv (updateHome m) ∧ (updateHome m).height = m.height ∧
      (updateHome m).items = m.items :=
  ⟨Inv_reset _ hv rfl rfl, rfl, rfl⟩

theorem updateEnd_inv (m : FilePickerModel) (hv : 1 ≤ m.height - 6) (hI : Inv m)
    (hF : Fit m) :
    Inv (updateEnd m) ∧ (updateEnd m).height = m.height ∧ (updateEnd m).items = m.items := by
  unfold updateEnd
  simp only
  split_ifs <;> refine ⟨?_, rfl, rfl⟩
  all_goals
    have hn := sliceLen_nonneg m.items
    obtain ⟨⟨hlo, hhi⟩, hfit⟩ := hF
    refine ⟨fun hpos => ?_, fun hzero => ?_⟩
    · have := hI.1 hpos
      simp only [wrap, minInt, maxInt] at *
      refine ⟨?_, ?_, ?_, ?_, fun hle => ?_⟩ <;> first | trivial | omega
    · have := hI.2 hzero
      simp only [wrap, minInt, maxInt] at *
      refine ⟨?_, ?_, ?_⟩ <;> first | trivial | omega

theorem updatePgUp_inv (m : FilePickerModel) (hv : 1 ≤ m.height - 6) (hI : Inv m)
    (hF : Fit m) :
    Inv (updatePgUp m) ∧ (updatePgUp m).height = m.height ∧
      (updatePgUp m).items = m.items := by
  unfold updatePgUp
  simp only
  split_ifs <;> refine ⟨?_, rfl, rfl⟩
  all_goals
    have hn := sliceLen_nonneg m.items
    obtain ⟨⟨hlo, hhi⟩, hfit⟩ := hF
    refine ⟨fun hpos => ?_, fun hzero => ?_⟩
    · have := hI.1 hpos
      simp only [wrap, minInt, maxInt] at *
      refine ⟨?_, ?_, ?_, ?_, fun hle => ?_⟩ <;> first | trivial | omega
    · have := hI.2 hzero
      simp only [wrap, minInt, maxInt] at *
      refine ⟨?_, ?_, ?_⟩ <;> first | trivial | omega

theorem updatePgDown_inv (m : FilePickerModel) (hv : 1 ≤ m.height - 6) (hI : Inv m)
    (hF : Fit m) :
    Inv (updatePgDown m) ∧ (updatePgDown m).height = m.height ∧
      (updatePgDown m).items = m.items := by
  unfold updatePgDown
  simp only
  split_ifs <;> refine ⟨?_, rfl, rfl⟩
  all_goals
    have hn := sliceLen_nonneg m.items
    obtain ⟨⟨hlo, hhi⟩, hfit⟩ := hF
    refine ⟨fun hpos => ?_, fun hzero => ?_⟩
    · have := hI.1 hpos
      simp only [wrap, minInt, maxInt] at *
      refine ⟨?_, ?_, ?_, ?_, fun hle => ?_⟩ <;> first | trivial | omega
    · have := hI.2 hzero
      simp only [wrap, minInt, maxInt] at *
      refine ⟨?_, ?_, ?_⟩ <;> first | trivial | omega

theorem updateToggleHidden_inv (env : Env) (m : FilePickerModel) (hv : 1 ≤ m.height - 6)
    (hF : Fit m) (hfits : Fits m.height env) :
    Inv (updateToggleHidden env m) ∧ (updateToggleHidden env m).height = m.height ∧
      Fit (updateToggleHidden env m) := by
  unfold updateToggleHidden
  exact ⟨Inv_reset _ (by simpa using hv) (by simp) (by simp), by simp,
    Fit_loadDirectory env _ hF.1 hfits⟩

theorem updateEnter_inv (env : Env) (m : FilePickerModel) (hv : 1 ≤ m.height - 6)
    (hI : Inv m) (hF : Fit m) (hfits : Fits m.height env) :
    ∃ m' c, updateEnter env m = some (m', c) ∧ Inv m' ∧ m'.height = m.height ∧ Fit m' := by
  have hn := sliceLen_nonneg m.items
  unfold updateEnter
  by_cases h0 : sliceLen m.items = 0
  · rw [if_pos h0]; exact ⟨m, .nil, rfl, hI, rfl, hF⟩
  rw [if_neg h0]
  have hpos : 0 < sliceLen m.items := by omega
  obtain ⟨hs0, hsc, hcl, -, -⟩ := hI.1 hpos
  obtain ⟨x, hx⟩ := sliceIndex_some m.items m.cursor (by omega) hcl
  rw [hx]
  simp only
  by_cases hd : x.isDir = true
  · rw [if_pos hd]
    exact ⟨_, _, rfl, Inv_reset _ (by simpa using hv) (by simp) (by simp), by simp,
      Fit_loadDirectory env _ hF.1 hfits⟩
  · rw [if_neg hd]
    exact ⟨_, _, rfl, hI, rfl, hF⟩

/-- One `Update` from a state with the invariant (window height at least 1, no
overflow of Go's `int`) does not panic, keeps `height` and re-establishes the
invariant. -/
theorem Update_step (env : Env) (m : FilePickerModel) (msg : Msg)
    (hv : 1 ≤ m.height - 6) (hI : Inv m) (hF : Fit m) (hfits : Fits m.height env) :
    ∃ m' c, Update env m msg = some (m', c) ∧ Inv m' ∧ m'.height = m.height ∧ Fit m' := by
  cases msg with
  | other => exact ⟨m, .nil, rfl, hI, rfl, hF⟩
  | key s =>
    apply Update_key_cases
      (fun r => ∃ m' c, r = some (m', c) ∧ Inv m' ∧ m'.height = m.height ∧ Fit m')
    · exact ⟨_, _, rfl, hI, rfl, hF⟩
    · exact updateEnter_inv env m hv hI hF hfits
    · exact ⟨_, _, rfl, hI, rfl, hF⟩
    · obtain ⟨h1, h2, h3⟩ := updateUp_inv m hI hF
      exact ⟨_, _, rfl, h1, h2, Fit_of_eq m _ h2 h3 hF⟩
    · obtain ⟨h1, h2, h3⟩ := updateDown_inv m hv hI hF
      exact ⟨_, _, rfl, h1, h2, Fit_of_eq m _ h2 h3 hF⟩
    · exact ⟨_, _, rfl, updateToggleHidden_inv env m hv hF hfits⟩
    · obtain ⟨h1, h2, h3⟩ := updateHome_inv m hv
      exact ⟨_, _, rfl, h1, h2, Fit_of_eq m _ h2 h3 hF⟩
    · obtain ⟨h1, h2, h3⟩ := updateEnd_inv m hv hI hF
      exact ⟨_, _, rfl, h1, h2, Fit_of_eq m _ h2 h3 hF⟩
    · obtain ⟨h1, h2, h3⟩ := updatePgUp_inv m hv hI hF
      exact ⟨_, _, rfl, h1, h2, Fit_of_eq m _ h2 h3 hF⟩
    · obtain ⟨h1, h2, h3⟩ := updatePgDown_inv m hv hI hF
      exact ⟨_, _, rfl, h1, h2, Fit_of_eq m _ h2 h3 hF⟩
    · exact ⟨_, _, rfl, hI, rfl, hF⟩

/-- Every run of `Update`s from a state with the invariant, over systems whose
listings fit the window height, ends, without a panic, in a state with the
invariant and the same `height`. -/
theorem runUpdates_inv (evs : List (Env × Msg)) :
    ∀ m : FilePickerModel, 1 ≤ m.height - 6 → Inv m → Fit m →
      (∀ ev ∈ evs, Fits m.height ev.1) →
      ∃ m', runUpdates m evs = some m' ∧ Inv m' ∧ Fit m' ∧ m'.height = m.height := by
  induction evs with
  | nil => intro m _ hI hF _; exact ⟨m, rfl, hI, hF, rfl⟩
  | cons ev rest ih =>
    intro m hv hI hF hfits
    obtain ⟨env, msg⟩ := ev
    obtain ⟨m1, c, h1, hI1, hh1, hF1⟩ :=
      Update_step env m msg hv hI hF (hfits (env, msg) (List.mem_cons_self _ _))
    obtain ⟨m2, h2, hI2, hF2, hh2⟩ := ih m1 (by rw [hh1]; exact hv) hI1 hF1
      (fun ev hev => by rw [hh1]; exact hfits ev (List.mem_cons_of_mem _ hev))
    refine ⟨m2, ?_, hI2, hF2, by rw [hh2, hh1]⟩
    simp only [runUpdates, h1]
    exact h2

/-! ## `View` stays inside the list -/

theorem viewRowsFrom_some (st : Styles) (m : FilePickerModel) :
    ∀ (n : Nat) (i : Int), 0 ≤ i → i + (n : Int) ≤ sliceLen m.items →
      ∃ rows, viewRowsFrom st m n i = some rows := by
  intro n
  induction n with
  | zero => intro i _ _; exact ⟨[], rfl⟩
  | succ k ih =>
    intro i h0 h1
    obtain ⟨x, hx⟩ := sliceIndex_some m.items i h0 (by push_cast at h1; omega)
    obtain ⟨rows, hrows⟩ := ih (i + 1) (by omega) (by push_cast at h1; omega)
    simp only [viewRowsFrom, viewRow, hx, hrows, Option.map_some']
    exact ⟨_, rfl⟩

theorem viewEndIndex_le (m : FilePickerModel) : viewEndIndex m ≤ sliceLen m.items := by
  unfold viewEndIndex
  simp only
  split_ifs <;> omega

theorem viewRows_some (st : Styles) (m : FilePickerModel) (hs : 0 ≤ m.startIndex) :
    ∃ rows, viewRows st m (viewEndIndex m) = some rows := by
  unfold viewRows
  have hle := viewEndIndex_le m
  by_cases hlt : viewEndIndex m - m.startIndex ≤ 0
  · have h0 : (viewEndIndex m - m.startIndex).toNat = 0 := by omega
    rw [h0]
    exact ⟨[], rfl⟩
  · exact viewRowsFrom_some st m _ _ hs (by omega)

/-- When the window starts at a non-negative index, no `m.items[i]` of `View`
is out of range: `View` returns its string. -/
theorem View_some (env : Env) (st : Styles) (m : FilePickerModel)
    (hs : 0 ≤ m.startIndex) : ∃ out, View env st m = some out := by
  unfold View
  by_cases hd : m.done = true
  · rw [if_pos hd]; exact ⟨_, rfl⟩
  rw [if_neg hd]
  have hm : 0 ≤ (if m.items.isNone = true then loadDirectory env m else m).startIndex := by
    split_ifs <;> simpa using hs
  generalize (if m.items.isNone = true then loadDirectory env m else m) = m' at hm ⊢
  simp only
  by_cases h0 : sliceLen m'.items = 0
  · rw [if_pos h0]; exact ⟨_, rfl⟩
  · rw [if_neg h0]
    obtain ⟨rows, hrows⟩ := viewRows_some st m' hm
    rw [hrows]; exact ⟨_, rfl⟩

/-! ## What `Update` does on each key -/

theorem Update_esc (env : Env) (m : FilePickerModel) :
    Update env m (.key "esc") = some (updateCancel m, .quit) := rfl

theorem Update_ctrl_c (env : Env) (m : FilePickerModel) :
    Update env m (.key "ctrl+c") = some (updateCancel m, .quit) := rfl

theorem Update_enter (env : Env) (m : FilePickerModel) :
    Update env m (.key "enter") = updateEnter env m := rfl

theorem Update_s (env : Env) (m : FilePickerModel) :
    Update env m (.key "s") = some (updateSelect m, .quit) := rfl

theorem Update_up (env : Env) (m : FilePickerModel) :
    Update env m (.key "up") = some (updateUp m, .nil) := rfl

theorem Update_k (env : Env) (m : FilePickerModel) :
    Update env m (.key "k") = some (updateUp m, .nil) := rfl

theorem Update_down (env : Env) (m : FilePickerModel) :
    Update env m (.key "down") = some (updateDown m, .nil) := rfl

theorem Update_j (env : Env) (m : FilePickerModel) :
    Update env m (.key "j") = some (updateDown m, .nil) := rfl

theorem Update_h (env : Env) (m : FilePickerModel) :
    Update env m (.key "h") = some (updateToggleHidden env m, .nil) := rfl

theorem Update_home (env : Env) (m : FilePickerModel) :
    Update env m (.key "home") = some (updateHome m, .nil) := rfl

theorem Update_end (env : Env) (m : FilePickerModel) :
    Update env m (.key "end") = some (updateEnd m, .nil) := rfl

theorem Update_pgup (env : Env) (m : FilePickerModel) :
    Update env m (.key "pgup") = some (updatePgUp m, .nil) := rfl

theorem Update_pgdown (env : Env) (m : FilePickerModel) :
    Update env m (.key "pgdown") = some (updatePgDown m, .nil) := rfl

/-! ## The scroll position after each navigation key -/

theorem updateUp_position (m : FilePickerModel) :
    position (updateUp m) =
      if m.cursor > 0 then
        (wrap (m.cursor - 1),
          if wrap (m.cursor - 1) < m.startIndex then wrap (m.cursor - 1) else m.startIndex)
      else (m.cursor, m.startIndex) := by
  unfold updateUp position
  simp only
  split_ifs <;> rfl

theorem updateDown_position (m : FilePickerModel) :
    position (updateDown m) =
      if m.cursor < wrap (sliceLen m.items - 1) then
        (wrap (m.cursor + 1),
          if wrap (m.cursor + 1) ≥ wrap (m.startIndex + wrap (m.height - 6)) then
            wrap (wrap (wrap (m.cursor + 1) - wrap (m.height - 6)) + 1)
          else m.startIndex)
      else (m.cursor, m.startIndex) := by
  unfold updateDown position
  simp only
  split_ifs <;> rfl

theorem updateHome_position (m : FilePickerModel) : position (updateHome m) = (0, 0) := rfl

theorem updateEnd_position (m : FilePickerModel) :
    position (updateEnd m) =
      (wrap (sliceLen m.items - 1),
        if sliceLen m.items > wrap (m.height - 6) then
          wrap (sliceLen m.items - wrap (m.height - 6))
        else m.startIndex) := by
  unfold updateEnd position
  simp only
  split_ifs <;> rfl

theorem updatePgUp_position (m : FilePickerModel) :
    position (updatePgUp m) =
      if wrap (m.cursor - wrap (m.height - 6)) < 0 then (0, 0)
      else (wrap (m.cursor - wrap (m.height - 6)), wrap (m.cursor - wrap (m.height - 6))) := by
  unfold updatePgUp position
  simp only
  split_ifs <;> rfl

theorem updatePgDown_position (m : FilePickerModel) :
    position (updatePgDown m) =
      if wrap (m.cursor + wrap (m.height - 6)) ≥ sliceLen m.items then
        (wrap (sliceLen m.items - 1),
          if wrap (sliceLen m.items - 1) ≥ wrap (m.startIndex + wrap (m.height - 6)) then
            wrap (wrap (wrap (sliceLen m.items - 1) - wrap (m.height - 6)) + 1)
          else m.startIndex)
      else
        (wrap (m.cursor + wrap (m.height - 6)),
          if wrap (m.cursor + wrap (m.height - 6)) ≥ wrap (m.startIndex + wrap (m.height - 6))
          then wrap (wrap (wrap (m.cursor + wrap (m.height - 6)) - wrap (m.height - 6)) + 1)
          else m.startIndex) := by
  unfold updatePgDown position
  simp only
  split_ifs <;> rfl

/-- What the enter case returns: the model as it is on an empty list, a panic
when the cursor is no index of the list, and otherwise the reload at the
entry's path (directory entry) or a commit of the current path (other entry). -/
theorem updateEnter_eq (env : Env) (m : FilePickerModel) :
    (sliceLen m.items = 0 → updateEnter env m = some (m, .nil)) ∧
    (sliceLen m.items ≠ 0 → sliceIndex m.items m.cursor = none → updateEnter env m = none) ∧
    (∀ item, sliceLen m.items ≠ 0 → sliceIndex m.items m.cursor = some item →
      item.isDir = true →
      updateEnter env m = some (loadDirectory env
        { m with currentPath := item.path, cursor := 0, startIndex := 0 }, .nil)) ∧
    (∀ item, sliceLen m.items ≠ 0 → sliceIndex m.items m.cursor = some item →
      item.isDir = false →
      updateEnter env m = some ({ m with selected := m.currentPath, done := true }, .quit)) := by
  refine ⟨fun h0 => ?_, fun h0 hi => ?_, fun item h0 hi hd => ?_, fun item h0 hi hd => ?_⟩
  · unfold updateEnter; rw [if_pos h0]
  · unfold updateEnter; rw [if_neg h0, hi]
  · unfold updateEnter; rw [if_neg h0, hi]; simp only [hd, if_true]
  · unfold updateEnter; rw [if_neg h0, hi]; simp only [hd, Bool.false_eq_true, if_false]

/-! ## Sample systems fit every small window -/

theorem Fits_sampleEnv (height : Int) (h : 3 + (height - 6) ≤ maxInt) :
    Fits height sampleEnv := by
  intro p L hL
  have hL' : some sampleListing = some L := hL
  cases hL'
  exact h

theorem Fits_failingEnv (height : Int) : Fits height failingEnv := by
  intro p L hL
  have hL' : (none : Option (List DirEntry)) = some L := hL
  cases hL'

theorem Fits_all (height : Int) (evs : List (Env × Msg))
    (h : ∀ ev ∈ evs, ev.1 = sampleEnv ∨ ev.1 = failingEnv)
    (hs : 3 + (height - 6) ≤ maxInt) : ∀ ev ∈ evs, Fits height ev.1 := by
  intro ev hev
  rcases h ev hev with h1 | h1
  · rw [h1]; exact Fits_sampleEnv height hs
  · rw [h1]; exact Fits_failingEnv height

/-! ## The claims -/

set_option maxRecDepth 4000

/-- C1 as stated fails: with height `maxInt` (window height `maxInt - 6 ≥ 1`),
after the keys h, seven times down and pgdown over thirteen entries, the
cursor is `minInt` (the sum `7 + (maxInt - 6)` wrapped) and startIndex is 0, so
`startIndex ≤ cursor` does not hold. -/
theorem viewport_invariant_overflow :
    (1 ≤ maxInt - 6) ∧
    (runUpdates tallPicker overflowKeys).map
      (fun m => (sliceLen m.items, m.cursor, m.startIndex)) = some (13, minInt, 0) ∧
    ¬ ((0 : Int) ≤ minInt) := by
  decide

/-- C1, amended. For every picker made by `NewFilePicker` with a height that is
a Go `int`, window height `height - 6` at least 1, and every sequence of
messages (keys or not) over file systems whose directory listings have, each,
at most `maxInt - (height - 6)` entries (no addition of the code overflows),
the run of `Update`s ends without a panic in a state that, when its entry list
is non-empty, has `startIndex ≤ cursor < startIndex + (height - 6)`. -/
theorem viewport_invariant (env0 : Env) (startPath : String) (height : Int)
    (hg : GoInt height) (hv : 1 ≤ height - 6) (evs : List (Env × Msg))
    (hfits : ∀ ev ∈ evs, Fits height ev.1) :
    ∃ m, runUpdates (NewFilePicker env0 startPath height) evs = some m ∧
      m.height = height ∧
      (0 < sliceLen m.items →
        m.startIndex ≤ m.cursor ∧ m.cursor < m.startIndex + (height - 6)) := by
  obtain ⟨m, hrun, hI, -, hh⟩ :=
    runUpdates_inv evs (NewFilePicker env0 startPath height) hv
      (Inv_NewFilePicker env0 startPath height hv)
      (Fit_NewFilePicker env0 startPath height hg) hfits
  have hh' : m.height = height := hh
  refine ⟨m, hrun, hh', fun hpos => ?_⟩
  obtain ⟨-, h1, -, h2, -⟩ := hI.1 hpos
  rw [hh'] at h2
  exact ⟨h1, h2⟩

/-- C1 amended, at height 11 after the keys h, end, pgup, down. -/
theorem viewport_invariant_witness :
    GoInt 11 ∧ (1 : Int) ≤ 11 - 6 ∧
    (∀ ev ∈ [(sampleEnv, Msg.key "h"), (sampleEnv, Msg.key "end"),
        (sampleEnv, Msg.key "pgup"), (sampleEnv, Msg.key "down")], Fits 11 ev.1) ∧
    ∃ m, runUpdates (NewFilePicker sampleEnv "/home/dev" 11)
        [(sampleEnv, .key "h"), (sampleEnv, .key "end"), (sampleEnv, .key "pgup"),
         (sampleEnv, .key "down")] = some m ∧
      m.height = 11 ∧
      (0 < sliceLen m.items →
        m.startIndex ≤ m.cursor ∧ m.cursor < m.startIndex + (11 - 6)) :=
  ⟨by decide, by decide,
   Fits_all 11 _ (fun ev hev => by simp at hev; rcases hev with h | h | h | h <;> simp [h])
     (by decide),
   viewport_invariant sampleEnv "/home/dev" 11 (by decide) (by decide) _
     (Fits_all 11 _ (fun ev hev => by simp at hev; rcases hev with h | h | h | h <;> simp [h])
       (by decide))⟩

/-- C2 as stated fails: with height `maxInt`, after the keys h, seven times
down and pgdown over thirteen entries, the cursor is `minInt`, no index of the
list, and enter then panics on `m.items[m.cursor]`. -/
theorem cursor_in_range_overflow :
    (1 ≤ maxInt - 6) ∧
    (runUpdates tallPicker overflowKeys).map (fun m => (sliceLen m.items, m.cursor))
      = some (13, minInt) ∧
    ¬ ((0 : Int) ≤ minInt) ∧
    runUpdates tallPicker (overflowKeys ++ [(wideEnv, Msg.key "enter")]) = none := by
  decide

/-- C2, amended. For every picker made by `NewFilePicker` with a height that is
a Go `int`, window height at least 1, and every sequence of messages over file
systems whose directory listings have, each, at most `maxInt - (height - 6)`
entries, the run of `Update`s ends without a panic in a state where, when the
entry list is non-empty, `0 ≤ cursor < len(items)`; there the index
`m.items[m.cursor]` of the enter case is in range (`Update` on enter returns)
and the indices `m.items[i]` of `View` are in range (`View` returns). -/
theorem cursor_in_range (env0 : Env) (startPath : String) (height : Int)
    (hg : GoInt height) (hv : 1 ≤ height - 6) (evs : List (Env × Msg))
    (hfits : ∀ ev ∈ evs, Fits height ev.1) :
    ∃ m, runUpdates (NewFilePicker env0 startPath height) evs = some m ∧
      (0 < sliceLen m.items → 0 ≤ m.cursor ∧ m.cursor < sliceLen m.items) ∧
      (0 < sliceLen m.items → ∃ item, sliceIndex m.items m.cursor = some item) ∧
      (∀ env, ∃ r, Update env m (.key "enter") = some r) ∧
      (∀ env st, ∃ out, View env st m = some out) := by
  obtain ⟨m, hrun, hI, -, -⟩ :=
    runUpdates_inv evs (NewFilePicker env0 startPath height) hv
      (Inv_NewFilePicker env0 startPath height hv)
      (Fit_NewFilePicker env0 startPath height hg) hfits
  have hn := sliceLen_nonneg m.items
  have hbound : 0 < sliceLen m.items → 0 ≤ m.cursor ∧ m.cursor < sliceLen m.items := by
    intro hpos
    obtain ⟨h0, h1, h2, -, -⟩ := hI.1 hpos
    exact ⟨by omega, h2⟩
  refine ⟨m, hrun, hbound, ?_, ?_, ?_⟩
  · intro hpos
    exact sliceIndex_some m.items m.cursor (hbound hpos).1 (hbound hpos).2
  · intro env
    rw [Update_enter]
    obtain ⟨e0, -, e2, e3⟩ := updateEnter_eq env m
    by_cases h0 : sliceLen m.items = 0
    · exact ⟨_, e0 h0⟩
    · obtain ⟨item, hi⟩ :=
        sliceIndex_some m.items m.cursor (hbound (by omega)).1 (hbound (by omega)).2
      cases hdir : item.isDir with
      | true => exact ⟨_, e2 item h0 hi hdir⟩
      | false => exact ⟨_, e3 item h0 hi hdir⟩
  · intro env st
    apply View_some
    by_cases hpos : 0 < sliceLen m.items
    · exact (hI.1 hpos).1
    · have := (hI.2 (by omega)).1
      omega

/-- C2 amended, at height 11 after the keys h, pgdown, enter, end. -/
theorem cursor_in_range_witness :
    GoInt 11 ∧ (1 : Int) ≤ 11 - 6 ∧
    (∀ ev ∈ [(sampleEnv, Msg.key "h"), (sampleEnv, Msg.key "pgdown"),
        (sampleEnv, Msg.key "enter"), (failingEnv, Msg.key "end")], Fits 11 ev.1) ∧
    ∃ m, runUpdates (NewFilePicker sampleEnv "/home/dev" 11)
        [(sampleEnv, .key "h"), (sampleEnv, .key "pgdown"), (sampleEnv, .key "enter"),
         (failingEnv, .key "end")] = some m ∧
      (0 < sliceLen m.items → 0 ≤ m.cursor ∧ m.cursor < sliceLen m.items) ∧
      (0 < sliceLen m.items → ∃ item, sliceIndex m.items m.cursor = some item) ∧
      (∀ env, ∃ r, Update env m (.key "enter") = some r) ∧
      (∀ env st, ∃ out, View env st m = some out) :=
  ⟨by decide, by decide,
   Fits_all 11 _ (fun ev hev => by simp at hev; rcases hev with h | h | h | h <;> simp [h])
     (by decide),
   cursor_in_range sampleEnv "/home/dev" 11 (by decide) (by decide) _
     (Fits_all 11 _ (fun ev hev => by simp at hev; rcases hev with h | h | h | h <;> simp [h])
       (by decide))⟩

/-- C3. On the empty entry list of a picker fresh from `NewFilePicker` (cursor
0, startIndex 0, any window height `n + 1` with a height `n + 7` that is a Go
`int`), the keys up, down, home and pgup leave cursor 0 and startIndex 0, but
end and pgdown set the cursor to -1. -/
theorem empty_list_end_pgdown (env : Env) (startPath : String) (n : Nat)
    (hgo : (n : Int) + 7 ≤ maxInt) :
    let m := NewFilePicker env startPath ((n : Int) + 7)
    let pos := fun (r : FilePickerModel × Cmd) => position r.1
    sliceLen m.items = 0 ∧ position m = (0, 0) ∧
    (Update env m (.key "up")).map pos = some (0, 0) ∧
    (Update env m (.key "down")).map pos = some (0, 0) ∧
    (Update env m (.key "home")).map pos = some (0, 0) ∧
    (Update env m (.key "pgup")).map pos = some (0, 0) ∧
    (Update env m (.key "end")).map pos = some (-1, 0) ∧
    (Update env m (.key "pgdown")).map pos = some (-1, 0) := by
  intro m pos
  have hlen : sliceLen m.items = 0 := rfl
  have hc : m.cursor = 0 := rfl
  have hs : m.startIndex = 0 := rfl
  have hh : m.height = (n : Int) + 7 := rfl
  have hn : (0 : Int) ≤ (n : Int) := Int.ofNat_nonneg n
  unfold maxInt at hgo
  refine ⟨hlen, rfl, ?_, ?_, ?_, ?_, ?_, ?_⟩
  · rw [Update_up]
    simp only [Option.map_some', pos, updateUp_position, hc, hs]
    rfl
  · rw [Update_down]
    simp only [Option.map_some', pos, updateDown_position, hc, hs, hlen, wrap]
    rfl
  · rw [Update_home]
    rfl
  · rw [Update_pgup]
    simp only [Option.map_some', pos, updatePgUp_position, hc, hh, wrap]
    rw [if_pos (by omega)]
  · rw [Update_end]
    simp only [Option.map_some', pos, updateEnd_position, hlen, hh, hs, wrap]
    rw [if_neg (by omega)]
    rfl
  · rw [Update_pgdown]
    simp only [Option.map_some', pos, updatePgDown_position, hlen, hc, hh, hs, wrap]
    rw [if_pos (by omega), if_neg (by omega)]
    rfl

/-- C3, at height 11 (window height 5). -/
theorem empty_list_end_pgdown_witness :
    (((4 : Nat) : Int) + 7 ≤ maxInt) ∧
    (let m := NewFilePicker sampleEnv "/home/dev" (((4 : Nat) : Int) + 7)
     let pos := fun (r : FilePickerModel × Cmd) => position r.1
     sliceLen m.items = 0 ∧ position m = (0, 0) ∧
     (Update sampleEnv m (.key "up")).map pos = some (0, 0) ∧
     (Update sampleEnv m (.key "down")).map pos = some (0, 0) ∧
     (Update sampleEnv m (.key "home")).map pos = some (0, 0) ∧
     (Update sampleEnv m (.key "pgup")).map pos = some (0, 0) ∧
     (Update sampleEnv m (.key "end")).map pos = some (-1, 0) ∧
     (Update sampleEnv m (.key "pgdown")).map pos = some (-1, 0)) :=
  ⟨by decide, empty_list_end_pgdown sampleEnv "/home/dev" 4 (by decide)⟩

/-- C4 as stated fails: the state `tallAtSeven` (height `maxInt`, thirteen
entries, cursor 7, startIndex 0) meets the hypotheses, the specification's
`moveCursor(+v)` gives cursor 12 and startIndex 0, and `Update` on pgdown gives
cursor `minInt` (the sum `7 + (maxInt - 6)` wrapped). -/
theorem keys_refine_moveCursor_overflow :
    (1 ≤ sliceLen tallAtSeven.items ∧ 1 ≤ tallAtSeven.height - 6 ∧
      0 ≤ tallAtSeven.startIndex ∧ tallAtSeven.startIndex ≤ tallAtSeven.cursor ∧
      tallAtSeven.cursor < min (sliceLen tallAtSeven.items)
        (tallAtSeven.startIndex + (tallAtSeven.height - 6))) ∧
    specMoveCursor tallAtSeven.cursor tallAtSeven.startIndex (tallAtSeven.height - 6)
      (sliceLen tallAtSeven.items) (tallAtSeven.height - 6) = (12, 0) ∧
    (Update wideEnv tallAtSeven (.key "pgdown")).map (fun r => position r.1)
      = some (minInt, 0) := by
  decide

/-- C4, amended. In every state whose `height` and `len(items)` are Go `int`s,
with `n = len(items) ≥ 1`, window height `v = height - 6 ≥ 1`,
`0 ≤ startIndex ≤ cursor < min(n, startIndex + v)` and `cursor + v ≤ maxInt`
(the additions of the code do not overflow), `Update` on up (or k), down (or
j), pgup and pgdown returns a state whose `(cursor, startIndex)` is that of the
specification's `moveCursor(-1)`, `moveCursor(+1)`, `moveCursor(-v)` and
`moveCursor(+v)`. -/
theorem keys_refine_moveCursor (env : Env) (m : FilePickerModel)
    (hh : m.height ≤ maxInt) (hl : sliceLen m.items ≤ maxInt)
    (hfit : m.cursor + (m.height - 6) ≤ maxInt)
    (hn : 1 ≤ sliceLen m.items) (hv : 1 ≤ m.height - 6)
    (hs : 0 ≤ m.startIndex) (hsc : m.startIndex ≤ m.cursor)
    (hc : m.cursor < min (sliceLen m.items) (m.startIndex + (m.height - 6))) :
    let spec := specMoveCursor m.cursor m.startIndex (m.height - 6) (sliceLen m.items)
    let pos := fun (r : FilePickerModel × Cmd) => position r.1
    (Update env m (.key "up")).map pos = some (spec (-1)) ∧
    (Update env m (.key "k")).map pos = some (spec (-1)) ∧
    (Update env m (.key "down")).map pos = some (spec 1) ∧
    (Update env m (.key "j")).map pos = some (spec 1) ∧
    (Update env m (.key "pgup")).map pos = some (spec (-(m.height - 6))) ∧
    (Update env m (.key "pgdown")).map pos = some (spec (m.height - 6)) := by
  intro spec pos
  have hc1 : m.cursor < sliceLen m.items := lt_of_lt_of_le hc (min_le_left _ _)
  have hc2 : m.cursor < m.startIndex + (m.height - 6) := lt_of_lt_of_le hc (min_le_right _ _)
  clear hc
  unfold maxInt at hh hl hfit
  have hup : position (updateUp m) = spec (-1) := by
    rw [updateUp_position]
    simp only [spec, specMoveCursor, clamp, wrap]
    split_ifs <;> simp only [Prod.mk.injEq, and_true, true_and] <;> omega
  have hdown : position (updateDown m) = spec 1 := by
    rw [updateDown_position]
    simp only [spec, specMoveCursor, clamp, wrap]
    split_ifs <;> simp only [Prod.mk.injEq, and_true, true_and] <;> omega
  have hpgup : position (updatePgUp m) = spec (-(m.height - 6)) := by
    rw [updatePgUp_position]
    simp only [spec, specMoveCursor, clamp, wrap]
    split_ifs <;> simp only [Prod.mk.injEq, and_true, true_and] <;> omega
  have hpgdown : position (updatePgDown m) = spec (m.height - 6) := by
    rw [updatePgDown_position]
    simp only [spec, specMoveCursor, clamp, wrap]
    split_ifs <;> simp only [Prod.mk.injEq, and_true, true_and] <;> omega
  refine ⟨?_, ?_, ?_, ?_, ?_, ?_⟩
  · rw [Update_up]; exact congrArg some hup
  · rw [Update_k]; exact congrArg some hup
  · rw [Update_down]; exact congrArg some hdown
  · rw [Update_j]; exact congrArg some hdown
  · rw [Update_pgup]; exact congrArg some hpgup
  · rw [Update_pgdown]; exact congrArg some hpgdown

/-- C4 amended, at the top of twelve entries with five visible rows. -/
theorem keys_refine_moveCursor_witness :
    let m := twelvePicker
    let spec := specMoveCursor m.cursor m.startIndex (m.height - 6) (sliceLen m.items)
    let pos := fun (r : FilePickerModel × Cmd) => position r.1
    (m.height ≤ maxInt ∧ sliceLen m.items ≤ maxInt ∧ m.cursor + (m.height - 6) ≤ maxInt ∧
      1 ≤ sliceLen m.items ∧ 1 ≤ m.height - 6 ∧ 0 ≤ m.startIndex ∧ m.startIndex ≤ m.cursor ∧
      m.cursor < min (sliceLen m.items) (m.startIndex + (m.height - 6))) ∧
    (Update sampleEnv m (.key "up")).map pos = some (spec (-1)) ∧
    (Update sampleEnv m (.key "k")).map pos = some (spec (-1)) ∧
    (Update sampleEnv m (.key "down")).map pos = some (spec 1) ∧
    (Update sampleEnv m (.key "j")).map pos = some (spec 1) ∧
    (Update sampleEnv m (.key "pgup")).map pos = some (spec (-(m.height - 6))) ∧
    (Update sampleEnv m (.key "pgdown")).map pos = some (spec (m.height - 6)) :=
  ⟨by decide,
   keys_refine_moveCursor sampleEnv twelvePicker (by decide) (by decide) (by decide)
     (by decide) (by decide) (by decide) (by decide) (by decide)⟩

/-- C5 as stated fails: with height `maxInt`, after the keys h, seven times
down, pgdown and pgup over thirteen entries, cursor and startIndex are 7 (the
difference `minInt - (maxInt - 6)` wrapped); `Update` on end then leaves
startIndex 7, not `max(0, 13 - (maxInt - 6)) = 0`. -/
theorem jumpEnd_overflow :
    (1 ≤ maxInt - 6) ∧
    (runUpdates tallPicker (overflowKeys ++ [(wideEnv, Msg.key "pgup")])).map
      (fun m => (sliceLen m.items, m.cursor, m.startIndex)) = some (13, 7, 7) ∧
    (runUpdates tallPicker
        (overflowKeys ++ [(wideEnv, Msg.key "pgup"), (wideEnv, Msg.key "end")])).map
      (fun m => (sliceLen m.items, m.cursor, m.startIndex)) = some (13, 12, 7) ∧
    max 0 (13 - (maxInt - 6)) = 0 := by
  decide

/-- C5, amended. For every picker made by `NewFilePicker` with a height that is
a Go `int`, window height `v = height - 6` at least 1, and every sequence of
messages over file systems whose directory listings have, each, at most
`maxInt - v` entries, the run ends without a panic in a state where, when the
entry list is non-empty with `n` entries, `Update` on end returns cursor
`n - 1` and startIndex `max(0, n - v)`. -/
theorem jumpEnd (env0 : Env) (startPath : String) (height : Int)
    (hg : GoInt height) (hv : 1 ≤ height - 6) (evs : List (Env × Msg))
    (hfits : ∀ ev ∈ evs, Fits height ev.1) :
    ∃ m, runUpdates (NewFilePicker env0 startPath height) evs = some m ∧
      (0 < sliceLen m.items → ∀ env, ∃ m' c,
        Update env m (.key "end") = some (m', c) ∧
        m'.cursor = sliceLen m.items - 1 ∧
        m'.startIndex = max 0 (sliceLen m.items - (height - 6))) := by
  obtain ⟨m, hrun, hI, hF, hh⟩ :=
    runUpdates_inv evs (NewFilePicker env0 startPath height) hv
      (Inv_NewFilePicker env0 startPath height hv)
      (Fit_NewFilePicker env0 startPath height hg) hfits
  refine ⟨m, hrun, fun hpos env => ⟨updateEnd m, .nil, Update_end env m, ?_⟩⟩
  obtain ⟨-, -, -, -, hfit0⟩ := hI.1 hpos
  obtain ⟨⟨hlo, hhi⟩, hfit⟩ := hF
  have hpair := updateEnd_position m
  have hh' : m.height = height := hh
  rw [hh'] at hpair hfit0 hlo hhi hfit
  simp only [position, Prod.mk.injEq] at hpair
  unfold minInt at hlo
  unfold maxInt at hhi hfit
  have hw1 : wrap (height - 6) = height - 6 := by unfold wrap; omega
  have hw2 : wrap (sliceLen m.items - 1) = sliceLen m.items - 1 := by unfold wrap; omega
  have hw3 : wrap (sliceLen m.items - (height - 6)) = sliceLen m.items - (height - 6) := by
    unfold wrap; omega
  rw [hw1, hw2, hw3] at hpair
  refine ⟨hpair.1, ?_⟩
  rw [hpair.2]
  by_cases hgt : sliceLen m.items > height - 6
  · rw [if_pos hgt, max_eq_right (by omega)]
  · rw [if_neg hgt, max_eq_left (by omega)]
    exact hfit0 (by omega)

/-- C5 amended, at height 11 after the keys h, down, pgdown. -/
theorem jumpEnd_witness :
    GoInt 11 ∧ (1 : Int) ≤ 11 - 6 ∧
    (∀ ev ∈ [(sampleEnv, Msg.key "h"), (sampleEnv, Msg.key "down"),
        (sampleEnv, Msg.key "pgdown")], Fits 11 ev.1) ∧
    ∃ m, runUpdates (NewFilePicker sampleEnv "/home/dev" 11)
        [(sampleEnv, .key "h"), (sampleEnv, .key "down"), (sampleEnv, .key "pgdown")]
        = some m ∧
      (0 < sliceLen m.items → ∀ env, ∃ m' c,
        Update env m (.key "end") = some (m', c) ∧
        m'.cursor = sliceLen m.items - 1 ∧
        m'.startIndex = max 0 (sliceLen m.items - (11 - 6))) :=
  ⟨by decide, by decide,
   Fits_all 11 _ (fun ev hev => by simp at hev; rcases hev with h | h | h <;> simp [h])
     (by decide),
   jumpEnd sampleEnv "/home/dev" 11 (by decide) (by decide) _
     (Fits_all 11 _ (fun ev hev => by simp at hev; rcases hev with h | h | h <;> simp [h])
       (by decide))⟩

/-- Pressing down `k` times from a state that `j` presses of down brought from
the top of the list. -/
theorem runUpdates_down (env : Env) (k : Nat) :
    ∀ (m : FilePickerModel) (j : Nat), m.height ≤ maxInt → sliceLen m.items ≤ maxInt →
      1 ≤ sliceLen m.items → 1 ≤ m.height - 6 →
      m.cursor = min (j : Int) (sliceLen m.items - 1) →
      m.startIndex = max 0 (m.cursor - (m.height - 6) + 1) →
      ∃ m', runUpdates m (List.replicate k (env, .key "down")) = some m' ∧
        m'.items = m.items ∧ m'.height = m.height ∧
        m'.cursor = min ((j + k : Nat) : Int) (sliceLen m.items - 1) ∧
        m'.startIndex = max 0 (m'.cursor - (m.height - 6) + 1) := by
  induction k with
  | zero => intro m j _ _ _ _ hc hs; exact ⟨m, rfl, rfl, rfl, hc, hs⟩
  | succ k ih =>
    intro m j hh hl hn hv hc hs
    have hitems : (updateDown m).items = m.items := by
      unfold updateDown; simp only; split_ifs <;> rfl
    have hheight : (updateDown m).height = m.height := by
      unfold updateDown; simp only; split_ifs <;> rfl
    have hpos := updateDown_position m
    simp only [position] at hpos
    have hh0 := hh
    have hl0 := hl
    unfold maxInt at hh0 hl0
    have hc' : (updateDown m).cursor = min ((j + 1 : Nat) : Int) (sliceLen m.items - 1) := by
      have := congrArg Prod.fst hpos
      simp only at this
      rw [this]
      push_cast
      simp only [wrap]
      split_ifs <;> simp only [] <;> omega
    have hs' : (updateDown m).startIndex
        = max 0 ((updateDown m).cursor - (m.height - 6) + 1) := by
      have h1 := congrArg Prod.fst hpos
      have h2 := congrArg Prod.snd hpos
      simp only at h1 h2
      rw [h1, h2]
      simp only [wrap]
      split_ifs <;> simp only [] <;> omega
    obtain ⟨m', hrun, hi, hh', hcur, hst⟩ :=
      ih (updateDown m) (j + 1) (by rw [hheight]; exact hh) (by rw [hitems]; exact hl)
        (by rw [hitems]; exact hn) (by rw [hheight]; exact hv)
        (by rw [hitems]; exact hc') (by rw [hheight]; exact hs')
    refine ⟨m', ?_, by rw [hi, hitems], by rw [hh', hheight], ?_, ?_⟩
    · simp only [List.replicate_succ, runUpdates, Update_down]
      exact hrun
    · rw [hcur, hitems]
      have : j + 1 + k = j + (k + 1) := by omega
      rw [this]
    · rw [hst, hheight]

/-- C6. From a state with cursor 0 and startIndex 0, `n ≥ 1` entries and window
height `v = height - 6 ≥ 1` (`height` and `n` being Go `int`s), the key down
pressed `k` times gives cursor `min(k, n - 1)` and startIndex
`max(0, cursor - v + 1)`. -/
theorem repeated_down (env : Env) (m : FilePickerModel) (k : Nat)
    (hh : m.height ≤ maxInt) (hl : sliceLen m.items ≤ maxInt)
    (hn : 1 ≤ sliceLen m.items) (hv : 1 ≤ m.height - 6)
    (hc : m.cursor = 0) (hs : m.startIndex = 0) :
    ∃ m', runUpdates m (List.replicate k (env, .key "down")) = some m' ∧
      m'.cursor = min (k : Int) (sliceLen m.items - 1) ∧
      m'.startIndex = max 0 (m'.cursor - (m.height - 6) + 1) := by
  obtain ⟨m', hrun, -, -, hcur, hst⟩ :=
    runUpdates_down env k m 0 hh hl hn hv (by rw [hc]; simp only [Nat.cast_zero]; omega)
      (by rw [hs, hc]; omega)
  refine ⟨m', hrun, ?_, hst⟩
  rw [hcur, Nat.zero_add]

/-- C6, with five visible rows (height 11) and twelve entries: eleven presses
of down leave cursor 11 and startIndex 7. -/
theorem repeated_down_witness :
    (twelvePicker.height ≤ maxInt ∧ sliceLen twelvePicker.items ≤ maxInt ∧
      1 ≤ sliceLen twelvePicker.items ∧ 1 ≤ twelvePicker.height - 6 ∧
      twelvePicker.cursor = 0 ∧ twelvePicker.startIndex = 0) ∧
    (∃ m', runUpdates twelvePicker (List.replicate 11 (sampleEnv, .key "down")) = some m' ∧
      m'.cursor = min ((11 : Nat) : Int) (sliceLen twelvePicker.items - 1) ∧
      m'.startIndex = max 0 (m'.cursor - (twelvePicker.height - 6) + 1)) ∧
    (runUpdates twelvePicker (List.replicate 11 (sampleEnv, .key "down"))).map position
      = some (11, 7) :=
  ⟨by decide,
   repeated_down sampleEnv twelvePicker 11 (by decide) (by decide) (by decide) (by decide)
     rfl rfl,
   by decide⟩

/-! ## Reloading the entries -/

/-- C7. When reading the current directory succeeds with listing `L`,
`loadDirectory` rebuilds the items as exactly: the entry ".." with the parent
path (only when the current path is not a root), then, in the order of `L`, one
entry `(name, join(currentPath, name), isDir = true)` for each element of `L`
that is a directory and is shown (showHidden, or the name does not start with
a dot); every entry is a directory and nothing else of the model changes. -/
theorem loadDirectory_success (env : Env) (m : FilePickerModel) (L : List DirEntry)
    (hread : env.readDir m.currentPath = some L) :
    loadDirectory env m =
      { m with items := some (specEntries env m.currentPath m.showHidden L) } ∧
    (∀ it ∈ specEntries env m.currentPath m.showHidden L, it.isDir = true) ∧
    (∀ it ∈ specEntries env m.currentPath m.showHidden L,
      it = { name := "..", path := env.dir m.currentPath, isDir := true } ∨
      ∃ e ∈ L, e.isDir = true ∧ (m.showHidden = true ∨ hasPrefix e.name "." = false) ∧
        it = { name := e.name, path := env.join m.currentPath e.name, isDir := true }) := by
  refine ⟨?_, mem_specEntries_isDir env m.currentPath m.showHidden L, ?_⟩
  · simp only [loadDirectory, hread, foldl_loadStep, specEntries, List.nil_append]
  · intro it hit
    unfold specEntries at hit
    rcases List.mem_append.mp hit with h | h
    · left
      split_ifs at h
      · exact List.mem_singleton.mp h
      · cases h
    · right
      obtain ⟨e, he, rfl⟩ := List.mem_map.mp h
      obtain ⟨heL, hcond⟩ := List.mem_filter.mp he
      simp only [Bool.and_eq_true, Bool.or_eq_true, Bool.not_eq_true'] at hcond
      exact ⟨e, heL, hcond.1, hcond.2, rfl⟩

/-- C7, on the listing `.git` (dir), `lib` (dir), `main.txt` (file) with hidden
entries off at a path that is not a root: the names are "..", "lib". -/
theorem loadDirectory_success_witness :
    let m := NewFilePicker sampleEnv "/home/dev" 11
    sampleEnv.readDir m.currentPath = some sampleListing ∧
    (loadDirectory sampleEnv m =
      { m with items := some (specEntries sampleEnv m.currentPath m.showHidden sampleListing) } ∧
    (∀ it ∈ specEntries sampleEnv m.currentPath m.showHidden sampleListing, it.isDir = true) ∧
    (∀ it ∈ specEntries sampleEnv m.currentPath m.showHidden sampleListing,
      it = { name := "..", path := sampleEnv.dir m.currentPath, isDir := true } ∨
      ∃ e ∈ sampleListing, e.isDir = true ∧
        (m.showHidden = true ∨ hasPrefix e.name "." = false) ∧
        it = { name := e.name, path := sampleEnv.join m.currentPath e.name, isDir := true })) ∧
    ((loadDirectory sampleEnv m).items.getD []).map (fun it => it.name) = ["..", "lib"] :=
  ⟨rfl, loadDirectory_success sampleEnv (NewFilePicker sampleEnv "/home/dev" 11) sampleListing rfl,
   by decide⟩

/-- A picker that is not done and holds a non-nil empty entry list renders the
line "(empty directory)". -/
theorem View_empty (env : Env) (st : Styles) (m : FilePickerModel)
    (hd : m.done = false) (hi : m.items = some []) :
    ∃ before after,
      View env st m = some (before ++ st.subtle "  (empty directory)\n" ++ after) := by
  have hlen : sliceLen m.items = 0 := by rw [hi]; rfl
  have hnone : m.items.isNone = false := by rw [hi]; rfl
  unfold View
  simp only [hd, hnone, Bool.false_eq_true, if_false, hlen, if_true, Option.map_some']
  exact ⟨_, _, congrArg some (String.append_assoc _ _ _)⟩

/-- C8. At the path "/home/dev", which is not a root, with the directory read
failing, `loadDirectory` leaves one entry, the parent entry "..", and `View`
writes its row and no "(empty directory)" line; at the root "/" it leaves no
entry and `View` writes "(empty directory)". -/
theorem read_failure_keeps_parent :
    failingEnv.readDir freshPicker.currentPath = none ∧
    (loadDirectory failingEnv freshPicker).items
      = some [{ name := "..", path := "/home", isDir := true }] ∧
    sliceLen (loadDirectory failingEnv freshPicker).items = 1 ∧
    View failingEnv plainStyles (loadDirectory failingEnv freshPicker) = some
      ("📁 Select Directory: /home/dev\n\n" ++ "→ ⬆️  ..\n" ++ "\n\n"
        ++ "  ↑/↓: Navigate  Enter: Open folder  S: Select this directory" ++ "\n"
        ++ "  H: Toggle hidden files  Esc: Cancel") ∧
    View failingEnv plainStyles freshPicker
      = View failingEnv plainStyles (loadDirectory failingEnv freshPicker) ∧
    sliceLen (loadDirectory failingEnv (NewFilePicker failingEnv "/" 11)).items = 0 ∧
    View failingEnv plainStyles (loadDirectory failingEnv (NewFilePicker failingEnv "/" 11))
      = some
      ("📁 Select Directory: /\n\n" ++ "  (empty directory)\n" ++ "\n\n"
        ++ "  ↑/↓: Navigate  Enter: Open folder  S: Select this directory" ++ "\n"
        ++ "  H: Toggle hidden files  Esc: Cancel") := by
  decide

/-- C10 as stated fails: when `filepath.Abs` fails the picker starts at the
empty path, and there esc, ctrl+c and s all leave the caller with
`IsDone() = true` and `Selected() = ""`. -/
theorem cancel_equals_empty_commit :
    let m := NewFilePicker noCwdEnv "" 11
    let obs := fun (r : FilePickerModel × Cmd) => observe r.1
    m.currentPath = "" ∧
    (Update noCwdEnv m (.key "esc")).map obs = (Update noCwdEnv m (.key "s")).map obs ∧
    (Update noCwdEnv m (.key "ctrl+c")).map obs = (Update noCwdEnv m (.key "s")).map obs ∧
    (Update noCwdEnv m (.key "s")).map obs = some (true, "") := by
  decide

/-- C10, amended. In every state, esc and ctrl+c leave the caller with
`IsDone() = true` and `Selected() = ""`, and s leaves it with `IsDone() = true`
and `Selected() = currentPath`; the two results differ exactly when the current
path is not the empty string. -/
theorem cancel_vs_commit (env : Env) (m : FilePickerModel) :
    let obs := fun (r : FilePickerModel × Cmd) => observe r.1
    (Update env m (.key "esc")).map obs = some (true, "") ∧
    (Update env m (.key "ctrl+c")).map obs = some (true, "") ∧
    (Update env m (.key "s")).map obs = some (true, m.currentPath) ∧
    ((Update env m (.key "esc")).map obs ≠ (Update env m (.key "s")).map obs
      ↔ m.currentPath ≠ "") := by
  intro obs
  have hesc : (Update env m (.key "esc")).map obs = some (true, "") := rfl
  have hs : (Update env m (.key "s")).map obs = some (true, m.currentPath) := rfl
  refine ⟨hesc, rfl, hs, ?_⟩
  rw [hesc, hs]
  simp only [ne_eq, Option.some.injEq, Prod.mk.injEq, true_and]
  exact ⟨fun h heq => h heq.symm, fun h heq => h heq.symm⟩

/-! ## After the picker is done -/

/-- Case analysis on the key of a `tea.KeyMsg` that keeps, in each case, which
key it is. -/
theorem Update_key_split (P : Option (FilePickerModel × Cmd) → Prop)
    (env : Env) (m : FilePickerModel) (s : String)
    (hcancel : s = "ctrl+c" ∨ s = "esc" → P (some (updateCancel m, .quit)))
    (henter : s = "enter" → P (updateEnter env m))
    (hselect : s = "s" → P (some (updateSelect m, .quit)))
    (hup : P (some (updateUp m, .nil)))
    (hdown : P (some (updateDown m, .nil)))
    (hhidden : P (some (updateToggleHidden env m, .nil)))
    (hhome : P (some (updateHome m, .nil)))
    (hend : P (some (updateEnd m, .nil)))
    (hpgup : P (some (updatePgUp m, .nil)))
    (hpgdown : P (some (updatePgDown m, .nil)))
    (hother : P (some (m, .nil))) :
    P (Update env m (.key s)) := by
  show P (if s = "ctrl+c" ∨ s = "esc" then _ else _)
  by_cases h1 : s = "ctrl+c" ∨ s = "esc"
  · rw [if_pos h1]; exact hcancel h1
  rw [if_neg h1]
  by_cases h2 : s = "enter"
  · rw [if_pos h2]; exact henter h2
  rw [if_neg h2]
  by_cases h3 : s = "s"
  · rw [if_pos h3]; exact hselect h3
  rw [if_neg h3]
  by_cases h4 : s = "up" ∨ s = "k"
  · rw [if_pos h4]; exact hup
  rw [if_neg h4]
  by_cases h5 : s = "down" ∨ s = "j"
  · rw [if_pos h5]; exact hdown
  rw [if_neg h5]
  by_cases h6 : s = "h"
  · rw [if_pos h6]; exact hhidden
  rw [if_neg h6]
  by_cases h7 : s = "home"
  · rw [if_pos h7]; exact hhome
  rw [if_neg h7]
  by_cases h8 : s = "end"
  · rw [if_pos h8]; exact hend
  rw [if_neg h8]
  by_cases h9 : s = "pgup"
  · rw [if_pos h9]; exact hpgup
  rw [if_neg h9]
  by_cases h10 : s = "pgdown"
  · rw [if_pos h10]; exact hpgdown
  rw [if_neg h10]
  exact hother

/-- The navigation keys change nothing but `cursor` and `startIndex`: here,
`done`, `selected` and `items` are kept. -/
theorem updateUp_frame (m : FilePickerModel) :
    (updateUp m).done = m.done ∧ (updateUp m).selected = m.selected ∧
    (updateUp m).items = m.items := by
  unfold updateUp; simp only; split_ifs <;> exact ⟨rfl, rfl, rfl⟩

theorem updateDown_frame (m : FilePickerModel) :
    (updateDown m).done = m.done ∧ (updateDown m).selected = m.selected ∧
    (updateDown m).items = m.items := by
  unfold updateDown; simp only; split_ifs <;> exact ⟨rfl, rfl, rfl⟩

theorem updateHome_frame (m : FilePickerModel) :
    (updateHome m).done = m.done ∧ (updateHome m).selected = m.selected ∧
    (updateHome m).items = m.items :=
  ⟨rfl, rfl, rfl⟩

theorem updateEnd_frame (m : FilePickerModel) :
    (updateEnd m).done = m.done ∧ (updateEnd m).selected = m.selected ∧
    (updateEnd m).items = m.items := by
  unfold updateEnd; simp only; split_ifs <;> exact ⟨rfl, rfl, rfl⟩

theorem updatePgUp_frame (m : FilePickerModel) :
    (updatePgUp m).done = m.done ∧ (updatePgUp m).selected = m.selected ∧
    (updatePgUp m).items = m.items := by
  unfold updatePgUp; simp only; split_ifs <;> exact ⟨rfl, rfl, rfl⟩

theorem updatePgDown_frame (m : FilePickerModel) :
    (updatePgDown m).done = m.done ∧ (updatePgDown m).selected = m.selected ∧
    (updatePgDown m).items = m.items := by
  unfold updatePgDown; simp only; split_ifs <;> exact ⟨rfl, rfl, rfl⟩

theorem updateToggleHidden_frame (env : Env) (m : FilePickerModel) :
    (updateToggleHidden env m).done = m.done ∧
    (updateToggleHidden env m).selected = m.selected := by
  unfold updateToggleHidden
  exact ⟨by simp, by simp⟩

/-- Whatever `Update` returns from a done picker is done. -/
theorem Update_done (env : Env) (m : FilePickerModel) (msg : Msg) (hd : m.done = true) :
    ∀ m' c, Update env m msg = some (m', c) → m'.done = true := by
  cases msg with
  | other =>
    intro m' c h
    cases h
    exact hd
  | key s =>
    apply Update_key_cases (fun r => ∀ m' c, r = some (m', c) → m'.done = true)
    · intro m' c h; cases h; rfl
    · intro m' c h
      obtain ⟨e0, e1, e2, e3⟩ := updateEnter_eq env m
      by_cases h0 : sliceLen m.items = 0
      · rw [e0 h0] at h; cases h; exact hd
      · cases hi : sliceIndex m.items m.cursor with
        | none => rw [e1 h0 hi] at h; cases h
        | some item =>
          cases hdir : item.isDir with
          | true =>
            rw [e2 item h0 hi hdir] at h; cases h
            simpa using hd
          | false =>
            rw [e3 item h0 hi hdir] at h; cases h
            rfl
    · intro m' c h; cases h; rfl
    · intro m' c h; cases h; rw [(updateUp_frame m).1]; exact hd
    · intro m' c h; cases h; rw [(updateDown_frame m).1]; exact hd
    · intro m' c h; cases h; rw [(updateToggleHidden_frame env m).1]; exact hd
    · intro m' c h; cases h; exact hd
    · intro m' c h; cases h; rw [(updateEnd_frame m).1]; exact hd
    · intro m' c h; cases h; rw [(updatePgUp_frame m).1]; exact hd
    · intro m' c h; cases h; rw [(updatePgDown_frame m).1]; exact hd
    · intro m' c h; cases h; exact hd

/-- A key other than esc, ctrl+c, s and enter, and any message that is no key:
`Update` returns, and keeps `done` and `selected`. -/
theorem Update_keeps_result (env : Env) (m : FilePickerModel) (msg : Msg)
    (h1 : msg ≠ .key "ctrl+c") (h2 : msg ≠ .key "esc") (h3 : msg ≠ .key "s")
    (h4 : msg ≠ .key "enter") :
    ∃ m' c, Update env m msg = some (m', c) ∧ m'.done = m.done ∧
      m'.selected = m.selected := by
  cases msg with
  | other => exact ⟨m, .nil, rfl, rfl, rfl⟩
  | key s =>
    apply Update_key_split
      (fun r => ∃ m' c, r = some (m', c) ∧ m'.done = m.done ∧ m'.selected = m.selected)
    · intro h
      rcases h with h | h
      · exact absurd (congrArg Msg.key h) h1
      · exact absurd (congrArg Msg.key h) h2
    · intro h; exact absurd (congrArg Msg.key h) h4
    · intro h; exact absurd (congrArg Msg.key h) h3
    · exact ⟨_, _, rfl, (updateUp_frame m).1, (updateUp_frame m).2.1⟩
    · exact ⟨_, _, rfl, (updateDown_frame m).1, (updateDown_frame m).2.1⟩
    · exact ⟨_, _, rfl, (updateToggleHidden_frame env m).1, (updateToggleHidden_frame env m).2⟩
    · exact ⟨_, _, rfl, rfl, rfl⟩
    · exact ⟨_, _, rfl, (updateEnd_frame m).1, (updateEnd_frame m).2.1⟩
    · exact ⟨_, _, rfl, (updatePgUp_frame m).1, (updatePgUp_frame m).2.1⟩
    · exact ⟨_, _, rfl, (updatePgDown_frame m).1, (updatePgDown_frame m).2.1⟩
    · exact ⟨_, _, rfl, rfl, rfl⟩

/-- C11 as stated fails: after s has committed the path "/home/dev" (done is
true), the key esc returns a state whose selected value is "" (a committed
path turned into a cancellation); and after esc has cancelled, the key s
returns a state whose selected value is "/home/dev". -/
theorem done_state_not_terminal :
    let committed := updateSelect (NewFilePicker sampleEnv "/home/dev" 11)
    let cancelled := updateCancel (NewFilePicker sampleEnv "/home/dev" 11)
    committed.done = true ∧ committed.selected = "/home/dev" ∧
    (Update sampleEnv committed (.key "esc")).map (fun r => r.1.selected) = some "" ∧
    cancelled.done = true ∧ cancelled.selected = "" ∧
    (Update sampleEnv cancelled (.key "s")).map (fun r => r.1.selected) = some "/home/dev" := by
  decide

/-- C11, amended. For every picker state with done = true: whatever `Update`
returns is done again, for every message; `Update` returns and keeps selected
on every message other than the keys esc, ctrl+c, s and enter; enter returns
when the list is empty or the cursor is an index of it, and keeps selected
when every entry is a directory; esc and ctrl+c return selected = "" and s
returns selected = currentPath. -/
theorem done_is_kept (env : Env) (m : FilePickerModel) (msg : Msg) (hd : m.done = true) :
    (∀ m' c, Update env m msg = some (m', c) → m'.done = true) ∧
    (msg ≠ .key "ctrl+c" → msg ≠ .key "esc" → msg ≠ .key "s" → msg ≠ .key "enter" →
      ∃ m' c, Update env m msg = some (m', c) ∧ m'.done = true ∧
        m'.selected = m.selected) ∧
    ((sliceLen m.items = 0 ∨ (0 ≤ m.cursor ∧ m.cursor < sliceLen m.items)) →
      ∃ m' c, Update env m (.key "enter") = some (m', c) ∧ m'.done = true ∧
        (AllDirs m → m'.selected = m.selected)) ∧
    (∃ m', Update env m (.key "esc") = some (m', .quit) ∧ m'.done = true ∧
      m'.selected = "") ∧
    (∃ m', Update env m (.key "ctrl+c") = some (m', .quit) ∧ m'.done = true ∧
      m'.selected = "") ∧
    (∃ m', Update env m (.key "s") = some (m', .quit) ∧ m'.done = true ∧
      m'.selected = m.currentPath) := by
  refine ⟨Update_done env m msg hd, fun h1 h2 h3 h4 => ?_, fun hr => ?_,
    ⟨_, Update_esc env m, rfl, rfl⟩, ⟨_, Update_ctrl_c env m, rfl, rfl⟩,
    ⟨_, Update_s env m, rfl, rfl⟩⟩
  · obtain ⟨m', c, h, hdone, hsel⟩ := Update_keeps_result env m msg h1 h2 h3 h4
    exact ⟨m', c, h, by rw [hdone]; exact hd, hsel⟩
  · rw [Update_enter]
    obtain ⟨e0, -, e2, e3⟩ := updateEnter_eq env m
    by_cases h0 : sliceLen m.items = 0
    · exact ⟨m, .nil, e0 h0, hd, fun _ => rfl⟩
    · have hin : 0 ≤ m.cursor ∧ m.cursor < sliceLen m.items := by
        rcases hr with h | h
        · exact absurd h h0
        · exact h
      obtain ⟨item, hi⟩ := sliceIndex_some m.items m.cursor hin.1 hin.2
      have hmem : item ∈ m.items.getD [] := by
        unfold sliceIndex at hi
        rw [if_pos hin] at hi
        exact List.getElem?_mem hi
      cases hdir : item.isDir with
      | true =>
        exact ⟨_, _, e2 item h0 hi hdir, by simpa using hd, fun _ => by simp⟩
      | false =>
        refine ⟨_, _, e3 item h0 hi hdir, rfl, fun hall => ?_⟩
        rw [hall item hmem] at hdir
        cases hdir

/-- C11 amended, at the state s leaves after committing "/home/dev", on the key
down. -/
theorem done_is_kept_witness :
    let m := updateSelect (NewFilePicker sampleEnv "/home/dev" 11)
    m.done = true ∧
    ((∀ m' c, Update sampleEnv m (.key "down") = some (m', c) → m'.done = true) ∧
    ((Msg.key "down") ≠ .key "ctrl+c" → (Msg.key "down") ≠ .key "esc" →
      (Msg.key "down") ≠ .key "s" → (Msg.key "down") ≠ .key "enter" →
      ∃ m' c, Update sampleEnv m (.key "down") = some (m', c) ∧ m'.done = true ∧
        m'.selected = m.selected) ∧
    ((sliceLen m.items = 0 ∨ (0 ≤ m.cursor ∧ m.cursor < sliceLen m.items)) →
      ∃ m' c, Update sampleEnv m (.key "enter") = some (m', c) ∧ m'.done = true ∧
        (AllDirs m → m'.selected = m.selected)) ∧
    (∃ m', Update sampleEnv m (.key "esc") = some (m', .quit) ∧ m'.done = true ∧
      m'.selected = "") ∧
    (∃ m', Update sampleEnv m (.key "ctrl+c") = some (m', .quit) ∧ m'.done = true ∧
      m'.selected = "") ∧
    (∃ m', Update sampleEnv m (.key "s") = some (m', .quit) ∧ m'.done = true ∧
      m'.selected = m.currentPath)) :=
  ⟨rfl, done_is_kept sampleEnv (updateSelect (NewFilePicker sampleEnv "/home/dev" 11))
    (.key "down") rfl⟩

/-! ## The main menu -/

theorem menu_Update_enter {L C : Type} (lib : ListLib L C) (m : MenuModel L) :
    MenuModel.Update lib m (.key "enter") =
      ({ (match lib.SelectedItem m.list with
          | some (.menuItem i) => { m with choice := i.Value }
          | _ => m) with quitting := true }, .quit) := rfl

/-- C12 as stated fails: on the menu over the empty list, where no item is
selected, enter sets `quitting` to true (and returns `tea.Quit`). -/
theorem menu_enter_on_empty_list_quits :
    headList.SelectedItem emptyMenu.list = none ∧
    emptyMenu.quitting = false ∧
    (MenuModel.Update headList emptyMenu (.key "enter")).1.quitting = true ∧
    (MenuModel.Update headList emptyMenu (.key "enter")).1.choice = "" := by
  decide

/-- C12, amended. For every `MenuModel` whose list has no selected `MenuItem`,
`Update` on enter records no choice (`choice` and `list` are as before) but
sets `quitting` to true and returns `tea.Quit`. -/
theorem menu_enter_without_selection {L C : Type} (lib : ListLib L C) (m : MenuModel L)
    (hno : ∀ i, lib.SelectedItem m.list ≠ some (.menuItem i)) :
    MenuModel.Update lib m (.key "enter") = ({ m with quitting := true }, .quit) ∧
    (MenuModel.Update lib m (.key "enter")).1.choice = m.choice ∧
    (MenuModel.Update lib m (.key "enter")).1.Choice = m.Choice ∧
    (MenuModel.Update lib m (.key "enter")).1.quitting = true := by
  have h : MenuModel.Update lib m (.key "enter") = ({ m with quitting := true }, .quit) := by
    rw [menu_Update_enter]
    cases hsel : lib.SelectedItem m.list with
    | none => rfl
    | some it =>
      cases it with
      | menuItem i => exact absurd hsel (hno i)
      | foreign => rfl
  refine ⟨h, ?_, ?_, ?_⟩ <;> rw [h]
  rfl

/-- C12 amended, on the menu over the empty list. -/
theorem menu_enter_without_selection_witness :
    (∀ i, headList.SelectedItem emptyMenu.list ≠ some (.menuItem i)) ∧
    (MenuModel.Update headList emptyMenu (.key "enter")
      = ({ emptyMenu with quitting := true }, .quit) ∧
    (MenuModel.Update headList emptyMenu (.key "enter")).1.choice = emptyMenu.choice ∧
    (MenuModel.Update headList emptyMenu (.key "enter")).1.Choice = emptyMenu.Choice ∧
    (MenuModel.Update headList emptyMenu (.key "enter")).1.quitting = true) :=
  ⟨fun _ h => (by cases h),
   menu_enter_without_selection headList emptyMenu (fun _ h => (by cases h))⟩

/-! ## Every listed entry is a directory -/

theorem sliceIndex_mem (items : Option (List fileItem)) (i : Int) (item : fileItem)
    (h : sliceIndex items i = some item) : item ∈ items.getD [] := by
  unfold sliceIndex at h
  split_ifs at h
  exact List.getElem?_mem h

theorem loadDirectory_allDirs (env : Env) (m : FilePickerModel) :
    AllDirs (loadDirectory env m) := by
  intro it hit
  cases hread : env.readDir m.currentPath with
  | none =>
    rw [loadDirectory_items_of_fail env m hread] at hit
    simp only [Option.getD_some] at hit
    split_ifs at hit
    · rw [List.mem_singleton.mp hit]
    · cases hit
  | some L =>
    rw [loadDirectory_items_of_read env m L hread] at hit
    exact mem_specEntries_isDir env m.currentPath m.showHidden L it hit

theorem AllDirs_of_items (m m' : FilePickerModel) (h : m'.items = m.items)
    (hall : AllDirs m) : AllDirs m' := by
  intro it hit
  rw [h] at hit
  exact hall it hit

/-- One `Update` keeps the entries directories. -/
theorem Update_allDirs (env : Env) (m : FilePickerModel) (msg : Msg) (hall : AllDirs m) :
    ∀ m' c, Update env m msg = some (m', c) → AllDirs m' := by
  cases msg with
  | other => intro m' c h; cases h; exact hall
  | key s =>
    apply Update_key_cases (fun r => ∀ m' c, r = some (m', c) → AllDirs m')
    · intro m' c h; cases h; exact AllDirs_of_items m _ rfl hall
    · intro m' c h
      obtain ⟨e0, e1, e2, e3⟩ := updateEnter_eq env m
      by_cases h0 : sliceLen m.items = 0
      · rw [e0 h0] at h; cases h; exact hall
      · cases hi : sliceIndex m.items m.cursor with
        | none => rw [e1 h0 hi] at h; cases h
        | some item =>
          cases hdir : item.isDir with
          | true => rw [e2 item h0 hi hdir] at h; cases h; exact loadDirectory_allDirs env _
          | false => rw [e3 item h0 hi hdir] at h; cases h; exact AllDirs_of_items m _ rfl hall
    · intro m' c h; cases h; exact AllDirs_of_items m _ rfl hall
    · intro m' c h; cases h; exact AllDirs_of_items m _ (updateUp_frame m).2.2 hall
    · intro m' c h; cases h; exact AllDirs_of_items m _ (updateDown_frame m).2.2 hall
    · intro m' c h; cases h; exact loadDirectory_allDirs env _
    · intro m' c h; cases h; exact AllDirs_of_items m _ rfl hall
    · intro m' c h; cases h; exact AllDirs_of_items m _ (updateEnd_frame m).2.2 hall
    · intro m' c h; cases h; exact AllDirs_of_items m _ (updatePgUp_frame m).2.2 hall
    · intro m' c h; cases h; exact AllDirs_of_items m _ (updatePgDown_frame m).2.2 hall
    · intro m' c h; cases h; exact hall

theorem runUpdates_allDirs (evs : List (Env × Msg)) :
    ∀ m m' : FilePickerModel, AllDirs m → runUpdates m evs = some m' → AllDirs m' := by
  induction evs with
  | nil => intro m m' hall h; cases h; exact hall
  | cons ev rest ih =>
    intro m m' hall h
    obtain ⟨env, msg⟩ := ev
    simp only [runUpdates] at h
    cases hu : Update env m msg with
    | none => rw [hu] at h; cases h
    | some r =>
      obtain ⟨m1, c⟩ := r
      rw [hu] at h
      exact ih m1 m' (Update_allDirs env m msg hall m1 c hu) h

theorem AllDirs_NewFilePicker (env : Env) (startPath : String) (height : Int) :
    AllDirs (NewFilePicker env startPath height) := by
  intro it hit
  cases hit

/-- C13 as stated fails: after the keys h and s the picker is done, and
`Update` on enter returns a state that is done (not `done = false`); and with
height `maxInt`, after the keys h, seven times down and pgdown over thirteen
entries, enter does not return (it panics on `m.items[m.cursor]`). -/
theorem enter_keeps_done_true :
    (runUpdates freshPicker [(sampleEnv, Msg.key "h"), (sampleEnv, Msg.key "s")]).map
      (fun m => m.done) = some true ∧
    ((runUpdates freshPicker [(sampleEnv, Msg.key "h"), (sampleEnv, Msg.key "s")]).bind
      (fun m => Update sampleEnv m (.key "enter"))).map (fun r => r.1.done) = some true ∧
    (1 ≤ maxInt - 6) ∧
    runUpdates tallPicker (overflowKeys ++ [(wideEnv, Msg.key "enter")]) = none := by
  decide

/-- C13, amended. For every picker made by `NewFilePicker` with a height that
is a Go `int`, window height at least 1, and every sequence of messages over
file systems whose directory listings have, each, at most
`maxInt - (height - 6)` entries, the run ends without a panic in a state where
`Update` on enter returns with the command nil, with `done` and `selected` as
they were (a picker that is not done stays not done): the model itself when
the entry list is empty, and otherwise the reload (`loadDirectory`) after
`currentPath` became the path of the entry at the cursor and `cursor` and
`startIndex` became 0. -/
theorem enter_is_navigation (env0 : Env) (startPath : String) (height : Int)
    (hg : GoInt height) (hv : 1 ≤ height - 6) (evs : List (Env × Msg))
    (hfits : ∀ ev ∈ evs, Fits height ev.1) :
    ∃ m, runUpdates (NewFilePicker env0 startPath height) evs = some m ∧
      ∀ env, ∃ m', Update env m (.key "enter") = some (m', .nil) ∧
        m'.done = m.done ∧ (m.done = false → m'.done = false) ∧
        m'.selected = m.selected ∧
        (sliceLen m.items = 0 → m' = m) ∧
        (0 < sliceLen m.items → ∃ item, sliceIndex m.items m.cursor = some item ∧
          m' = loadDirectory env
            { m with currentPath := item.path, cursor := 0, startIndex := 0 } ∧
          m'.currentPath = item.path ∧ m'.cursor = 0 ∧ m'.startIndex = 0 ∧
          m'.items = (loadDirectory env { m with currentPath := item.path }).items) := by
  obtain ⟨m, hrun, hI, -, -⟩ :=
    runUpdates_inv evs (NewFilePicker env0 startPath height) hv
      (Inv_NewFilePicker env0 startPath height hv)
      (Fit_NewFilePicker env0 startPath height hg) hfits
  have hall : AllDirs m :=
    runUpdates_allDirs evs _ m (AllDirs_NewFilePicker env0 startPath height) hrun
  refine ⟨m, hrun, fun env => ?_⟩
  have hn := sliceLen_nonneg m.items
  obtain ⟨e0, -, e2, -⟩ := updateEnter_eq env m
  rw [Update_enter]
  by_cases h0 : sliceLen m.items = 0
  · exact ⟨m, e0 h0, rfl, fun h => h, rfl, fun _ => rfl, fun hpos => by omega⟩
  · have hpos : 0 < sliceLen m.items := by omega
    obtain ⟨hs0, hsc, hcl, -, -⟩ := hI.1 hpos
    obtain ⟨item, hi⟩ := sliceIndex_some m.items m.cursor (by omega) hcl
    have hdir : item.isDir = true := hall item (sliceIndex_mem m.items m.cursor item hi)
    refine ⟨_, e2 item h0 hi hdir, by simp, fun h => by simpa using h, by simp,
      fun h => absurd h h0, fun _ => ⟨item, hi, rfl, by simp, by simp, by simp, ?_⟩⟩
    simp only [loadDirectory]
    cases env.readDir item.path <;> rfl

/-- C13 amended, at height 11 after the keys h, down. -/
theorem enter_is_navigation_witness :
    GoInt 11 ∧ (1 : Int) ≤ 11 - 6 ∧
    (∀ ev ∈ [(sampleEnv, Msg.key "h"), (sampleEnv, Msg.key "down")], Fits 11 ev.1) ∧
    ∃ m, runUpdates (NewFilePicker sampleEnv "/home/dev" 11)
        [(sampleEnv, .key "h"), (sampleEnv, .key "down")] = some m ∧
      ∀ env, ∃ m', Update env m (.key "enter") = some (m', .nil) ∧
        m'.done = m.done ∧ (m.done = false → m'.done = false) ∧
        m'.selected = m.selected ∧
        (sliceLen m.items = 0 → m' = m) ∧
        (0 < sliceLen m.items → ∃ item, sliceIndex m.items m.cursor = some item ∧
          m' = loadDirectory env
            { m with currentPath := item.path, cursor := 0, startIndex := 0 } ∧
          m'.currentPath = item.path ∧ m'.cursor = 0 ∧ m'.startIndex = 0 ∧
          m'.items = (loadDirectory env { m with currentPath := item.path }).items) :=
  ⟨by decide, by decide,
   Fits_all 11 _ (fun ev hev => by simp at hev; rcases hev with h | h <;> simp [h])
     (by decide),
   enter_is_navigation sampleEnv "/home/dev" 11 (by decide) (by decide) _
     (Fits_all 11 _ (fun ev hev => by simp at hev; rcases hev with h | h <;> simp [h])
       (by decide))⟩

/-! ## Showing and hiding dot entries -/

/-- The entries a reload gives depend on the path and the hidden flag only. -/
theorem loadDirectory_items_congr (env : Env) (m1 m2 : FilePickerModel)
    (hp : m1.currentPath = m2.currentPath) (hh : m1.showHidden = m2.showHidden) :
    (loadDirectory env m1).items = (loadDirectory env m2).items := by
  simp only [loadDirectory, hp, hh]
  cases env.readDir m2.currentPath <;> rfl

theorem mem_specEntries_shown (env : Env) (currentPath : String) (L : List DirEntry)
    (e : DirEntry) (he : e ∈ L) (hd : e.isDir = true) :
    ({ name := e.name, path := env.join currentPath e.name, isDir := true } : fileItem)
      ∈ specEntries env currentPath true L := by
  unfold specEntries
  apply List.mem_append_right
  apply List.mem_map.mpr
  refine ⟨e, List.mem_filter.mpr ⟨he, ?_⟩, rfl⟩
  simp only [hd, Bool.true_or, Bool.and_self]

theorem mem_specEntries_hidden (env : Env) (currentPath : String) (L : List DirEntry)
    (it : fileItem) (hit : it ∈ specEntries env currentPath false L) :
    it.name = ".." ∨ hasPrefix it.name "." = false := by
  unfold specEntries at hit
  rcases List.mem_append.mp hit with h | h
  · left
    split_ifs at h
    · rw [List.mem_singleton.mp h]
    · cases h
  · right
    obtain ⟨e, he, rfl⟩ := List.mem_map.mp h
    have hc := (List.mem_filter.mp he).2
    simp only [Bool.false_or, Bool.and_eq_true, Bool.not_eq_true'] at hc
    exact hc.2

/-- C14. In every state, `Update` on h returns the reload (`loadDirectory`) of
the model with `showHidden` negated and `cursor` and `startIndex` set to 0;
`currentPath`, `done` and `selected` are kept. With the same file system, a
second h restores `showHidden` and gives the entries of a reload under the
original flag. When the directory reads as `L`, every dot-prefixed directory
of `L` is an entry after toggling on, and after toggling off no entry has its
name (the name ".." of the parent entry apart). -/
theorem toggleHidden (env : Env) (m : FilePickerModel) :
    ∃ m', Update env m (.key "h") = some (m', .nil) ∧
      m' = loadDirectory env
        { m with showHidden := !m.showHidden, cursor := 0, startIndex := 0 } ∧
      m'.showHidden = (!m.showHidden) ∧ m'.cursor = 0 ∧ m'.startIndex = 0 ∧
      m'.currentPath = m.currentPath ∧ m'.done = m.done ∧ m'.selected = m.selected ∧
      m'.items = (loadDirectory env { m with showHidden := !m.showHidden }).items ∧
      (∃ m'', Update env m' (.key "h") = some (m'', .nil) ∧
        m''.showHidden = m.showHidden ∧ m''.cursor = 0 ∧ m''.startIndex = 0 ∧
        m''.items = (loadDirectory env m).items) ∧
      (∀ L e, env.readDir m.currentPath = some L → e ∈ L → e.isDir = true →
        hasPrefix e.name "." = true →
        (m.showHidden = false →
          ({ name := e.name, path := env.join m.currentPath e.name, isDir := true } : fileItem)
            ∈ m'.items.getD []) ∧
        (m.showHidden = true → e.name ≠ ".." →
          ∀ it ∈ m'.items.getD [], it.name ≠ e.name)) := by
  refine ⟨_, Update_h env m, rfl, ?_, ?_, ?_, ?_, ?_, ?_, ?_, ?_, ?_⟩
  · simp [updateToggleHidden]
  · simp [updateToggleHidden]
  · simp [updateToggleHidden]
  · simp [updateToggleHidden]
  · simp [updateToggleHidden]
  · simp [updateToggleHidden]
  · exact loadDirectory_items_congr env _ _ rfl rfl
  · refine ⟨_, Update_h env _, ?_, ?_, ?_, ?_⟩
    · simp [updateToggleHidden]
    · simp [updateToggleHidden]
    · simp [updateToggleHidden]
    · apply loadDirectory_items_congr
      · simp [updateToggleHidden]
      · simp [updateToggleHidden]
  · intro L e hread he hd hdot
    have hitems : ∀ b, m.showHidden = !b →
        (updateToggleHidden env m).items = some (specEntries env m.currentPath b L) := by
      intro b hb
      unfold updateToggleHidden
      rw [loadDirectory_items_of_read env _ L (by simpa using hread)]
      simp [hb]
    constructor
    · intro hoff
      rw [hitems true (by simpa using hoff)]
      exact mem_specEntries_shown env m.currentPath L e he hd
    · intro hon hne it hit
      rw [hitems false (by simpa using hon)] at hit
      intro heq
      rcases mem_specEntries_hidden env m.currentPath L it hit with h | h
      · exact hne (heq ▸ h)
      · rw [heq, hdot] at h
        cases h

/-- C14, on the directory `.git`, `lib`, `main.txt` with hidden entries off:
h lists "..", ".git", "lib", and a second h lists "..", "lib". -/
theorem toggleHidden_witness :
    (∃ m', Update sampleEnv sampleLoaded (.key "h") = some (m', .nil) ∧
      m' = loadDirectory sampleEnv
        { sampleLoaded with showHidden := !sampleLoaded.showHidden, cursor := 0,
                            startIndex := 0 } ∧
      m'.showHidden = (!sampleLoaded.showHidden) ∧ m'.cursor = 0 ∧ m'.startIndex = 0 ∧
      m'.currentPath = sampleLoaded.currentPath ∧ m'.done = sampleLoaded.done ∧
      m'.selected = sampleLoaded.selected ∧
      m'.items = (loadDirectory sampleEnv
        { sampleLoaded with showHidden := !sampleLoaded.showHidden }).items ∧
      (∃ m'', Update sampleEnv m' (.key "h") = some (m'', .nil) ∧
        m''.showHidden = sampleLoaded.showHidden ∧ m''.cursor = 0 ∧ m''.startIndex = 0 ∧
        m''.items = (loadDirectory sampleEnv sampleLoaded).items) ∧
      (∀ L e, sampleEnv.readDir sampleLoaded.currentPath = some L → e ∈ L → e.isDir = true →
        hasPrefix e.name "." = true →
        (sampleLoaded.showHidden = false →
          ({ name := e.name, path := sampleEnv.join sampleLoaded.currentPath e.name,
             isDir := true } : fileItem) ∈ m'.items.getD []) ∧
        (sampleLoaded.showHidden = true → e.name ≠ ".." →
          ∀ it ∈ m'.items.getD [], it.name ≠ e.name))) ∧
    (let names := fun (r : FilePickerModel × Cmd) => (r.1.items.getD []).map (fun it => it.name)
     (sampleLoaded.items.getD []).map (fun it => it.name) = ["..", "lib"] ∧
     (Update sampleEnv sampleLoaded (.key "h")).map names = some ["..", ".git", "lib"] ∧
     ((Update sampleEnv sampleLoaded (.key "h")).bind
       (fun r => Update sampleEnv r.1 (.key "h"))).map names = some ["..", "lib"] ∧
     ((Update sampleEnv sampleLoaded (.key "h")).bind
       (fun r => Update sampleEnv r.1 (.key "h"))).map (fun r => position r.1)
         = some (0, 0)) :=
  ⟨toggleHidden sampleEnv sampleLoaded, by decide⟩

/-! ## Three runs where the code leaves the specification -/

/-- C15. The picker `freshPicker` (height 11, from `NewFilePicker`) gets the key end and
is then rendered: `View` loads the entries "..", "lib" into its copy and writes
one row for each, but the cursor is -1 and no row carries the marker "→ ". -/
theorem view_after_end_marks_no_row :
    runUpdates freshPicker [(sampleEnv, .key "end")] = some (updateEnd freshPicker) ∧
    (updateEnd freshPicker).items = none ∧ (updateEnd freshPicker).cursor = -1 ∧
    ((loadDirectory sampleEnv (updateEnd freshPicker)).items.getD []).map (fun it => it.name)
      = ["..", "lib"] ∧
    (loadDirectory sampleEnv (updateEnd freshPicker)).cursor = -1 ∧
    (loadDirectory sampleEnv (updateEnd freshPicker)).startIndex = 0 ∧
    viewEndIndex (loadDirectory sampleEnv (updateEnd freshPicker)) = 2 ∧
    viewRows plainStyles (loadDirectory sampleEnv (updateEnd freshPicker))
        (viewEndIndex (loadDirectory sampleEnv (updateEnd freshPicker)))
      = some ["  ⬆️  ..\n", "  📁 lib\n"] ∧
    View sampleEnv plainStyles (updateEnd freshPicker) = some
      ("📁 Select Directory: /home/dev\n\n" ++ "  ⬆️  ..\n" ++ "  📁 lib\n" ++ "\n\n"
        ++ "  ↑/↓: Navigate  Enter: Open folder  S: Select this directory" ++ "\n"
        ++ "  H: Toggle hidden files  Esc: Cancel") := by
  decide

/-- C16. A picker fresh from `NewFilePicker` over a directory whose reload
gives two entries: `View` shows both, but the model it was called on still has
nil items, and `Update` on down leaves the cursor at 0. -/
theorem down_after_first_view_stays :
    sliceLen (loadDirectory sampleEnv freshPicker).items = 2 ∧
    View sampleEnv plainStyles freshPicker = some
      ("📁 Select Directory: /home/dev\n\n" ++ "→ ⬆️  ..\n" ++ "  📁 lib\n" ++ "\n\n"
        ++ "  ↑/↓: Navigate  Enter: Open folder  S: Select this directory" ++ "\n"
        ++ "  H: Toggle hidden files  Esc: Cancel") ∧
    freshPicker.items = none ∧ freshPicker.cursor = 0 ∧
    Update sampleEnv freshPicker (.key "down") = some (freshPicker, .nil) ∧
    (Update sampleEnv freshPicker (.key "down")).map (fun r => r.1.cursor) = some 0 := by
  decide

/-- C17. With height 5 (window height -1), after h has loaded three entries,
pgdown leaves the cursor at -1, and enter then indexes `m.items[-1]`: the run
panics. Likewise three pgup leave the cursor at 3, past the last index 2, and
enter panics. -/
theorem pgdown_small_height_panics :
    (runUpdates (NewFilePicker sampleEnv "/home/dev" 5)
        [(sampleEnv, .key "h"), (sampleEnv, .key "pgdown")]).map
      (fun m => (sliceLen m.items, m.cursor, m.startIndex)) = some (3, -1, 1) ∧
    runUpdates (NewFilePicker sampleEnv "/home/dev" 5)
        [(sampleEnv, .key "h"), (sampleEnv, .key "pgdown"), (sampleEnv, .key "enter")]
      = none ∧
    (runUpdates (NewFilePicker sampleEnv "/home/dev" 5)
        [(sampleEnv, .key "h"), (sampleEnv, .key "pgup"), (sampleEnv, .key "pgup"),
         (sampleEnv, .key "pgup")]).map
      (fun m => (sliceLen m.items, m.cursor, m.startIndex)) = some (3, 3, 3) ∧
    runUpdates (NewFilePicker sampleEnv "/home/dev" 5)
        [(sampleEnv, .key "h"), (sampleEnv, .key "pgup"), (sampleEnv, .key "pgup"),
         (sampleEnv, .key "pgup"), (sampleEnv, .key "enter")]
      = none := by
  decide

end FilePicker
